import Mathlib

/-!
# Verification of the VP Token Verifier API (`Api.py`)

A shallow embedding of the presentation-session protocol engine of `Api.py`:
the token codec (`decode_base64url`, `parse_jwt_without_verification`), the
credential extractor (`extract_credentials_from_vp`), the session store and the
three protocol handlers (`get_presentation_request`, `receive_presentation`,
`get_presentation_status`).

Modelling conventions:
* Python strings are `List Char`; Python byte strings are `List Nat`
  (each element < 256 where it matters, stated as hypotheses).
* Python `dict`s holding JSON data are association lists with the key of the
  first occurrence and the value of the last (as produced by `json.loads`).
* JSON numbers are modelled as integers; JSON documents whose numbers carry a
  fractional part or an exponent are outside the model (floating point).
* Python exceptions are modelled with `Except Str`; the message text is kept
  where the source constructs it explicitly (for example
  `Failed to parse JWT: Invalid JWT format`) and is a representative placeholder
  for messages produced inside the Python standard library.
* `datetime.utcnow().isoformat()` is modelled by an explicit `now` argument.
-/

set_option maxRecDepth 4096

namespace VPApi

/-- A Python (unicode) string, as its list of characters. -/
abbrev Str := List Char

/-- A Python byte string, as its list of byte values. -/
abbrev Bytes := List Nat

/-- A JSON value as produced by `json.loads` (numbers restricted to integers;
object member lists carry distinct keys, first occurrence first, last value
winning, exactly as a Python `dict` built by repeated insertion). -/
inductive Json where
  | null : Json
  | bool : Bool → Json
  | num : Int → Json
  | str : Str → Json
  | arr : List Json → Json
  | obj : List (Str × Json) → Json

mutual

/-- Structural equality test on JSON values. -/
def Json.beq : Json → Json → Bool
  | .null, .null => true
  | .bool a, .bool b => a = b
  | .num a, .num b => a = b
  | .str a, .str b => a = b
  | .arr xs, .arr ys => beqArr xs ys
  | .obj xs, .obj ys => beqObj xs ys
  | _, _ => false

/-- Pointwise `Json.beq` on element lists. -/
def beqArr : List Json → List Json → Bool
  | [], [] => true
  | x :: xs, y :: ys => Json.beq x y && beqArr xs ys
  | _, _ => false

/-- Pointwise `Json.beq` on member lists. -/
def beqObj : List (Str × Json) → List (Str × Json) → Bool
  | [], [] => true
  | (k, v) :: xs, (l, w) :: ys => k = l && Json.beq v w && beqObj xs ys
  | _, _ => false

end

mutual

theorem Json.beq_iff : ∀ a b : Json, Json.beq a b = true ↔ a = b
  | .null, b => by cases b <;> simp [Json.beq]
  | .bool a, b => by cases b <;> simp [Json.beq]
  | .num a, b => by cases b <;> simp [Json.beq]
  | .str a, b => by cases b <;> simp [Json.beq]
  | .arr xs, b => by
    cases b <;> simp [Json.beq]
    exact beqArr_iff xs _
  | .obj xs, b => by
    cases b <;> simp [Json.beq]
    exact beqObj_iff xs _

theorem beqArr_iff : ∀ xs ys : List Json, beqArr xs ys = true ↔ xs = ys
  | [], ys => by cases ys <;> simp [beqArr]
  | x :: xs, ys => by
    cases ys with
    | nil => simp [beqArr]
    | cons y ys => simp [beqArr, Json.beq_iff x y, beqArr_iff xs ys]

theorem beqObj_iff : ∀ xs ys : List (Str × Json), beqObj xs ys = true ↔ xs = ys
  | [], ys => by cases ys <;> simp [beqObj]
  | (k, v) :: xs, ys => by
    cases ys with
    | nil => simp [beqObj]
    | cons y ys =>
      obtain ⟨l, w⟩ := y
      simp [beqObj, Json.beq_iff v w, beqObj_iff xs ys, Prod.ext_iff, and_assoc]

end

instance : DecidableEq Json := fun a b =>
  decidable_of_iff (Json.beq a b = true) (Json.beq_iff a b)

/-- Python truthiness of a JSON value (`bool(v)` for the corresponding
Python value: `None`, `False`, `0`, `""`, `[]` and `{}` are falsy). -/
def Json.truthy : Json → Bool
  | .null => false
  | .bool b => b
  | .num n => n != 0
  | .str s => !s.isEmpty
  | .arr xs => !xs.isEmpty
  | .obj kvs => !kvs.isEmpty

/-- Python truthiness of an `Optional` JSON value (`None` is falsy). -/
def pyTruthy : Option Json → Bool
  | none => false
  | some v => v.truthy

/-- Python `a or b` on `Optional` JSON values: `a` when `a` is truthy,
otherwise `b`. -/
def pyOr (a b : Option Json) : Option Json :=
  if pyTruthy a then a else b

/-- Key lookup in an association list (`dict.get` / `dict[k]` on a present
key; keys are unique in lists built by `insertKV`). -/
def lookupKV (kvs : List (Str × Json)) (key : Str) : Option Json :=
  match kvs with
  | [] => none
  | (k, v) :: rest => if k = key then some v else lookupKV rest key

/-- `d[k] = v` on a Python `dict` as an association list: replace the value in
place when the key exists, append otherwise. -/
def insertKV (kvs : List (Str × Json)) (key : Str) (v : Json) : List (Str × Json) :=
  match kvs with
  | [] => [(key, v)]
  | (k, w) :: rest =>
    if k = key then (k, v) :: rest else (k, w) :: insertKV rest key v

/-- `dict.get(key)` on an object, `none` when the key is absent. -/
def Json.get : Json → Str → Option Json
  | .obj kvs, key => lookupKV kvs key
  | _, _ => none

/-! ## Base64 (`base64.b64decode` after the source's alphabet fix-up)

The decoder is strict about the alphabet: a character outside `A-Za-z0-9+/`
(with `=` only as final padding) makes it fail, where CPython's non-strict
`b64decode` would first discard it.  Every input the theorems touch is over
the clean alphabet, where the two agree. -/

/-- The value of a standard base64 alphabet character. -/
def b64Val (c : Char) : Option Nat :=
  if 'A' ≤ c ∧ c ≤ 'Z' then some (c.toNat - 65)
  else if 'a' ≤ c ∧ c ≤ 'z' then some (c.toNat - 71)
  else if '0' ≤ c ∧ c ≤ '9' then some (c.toNat + 4)
  else if c = '+' then some 62
  else if c = '/' then some 63
  else none

/-- `base64.b64decode` on a padded standard-alphabet string: groups of four
characters produce three bytes; `=` padding in the final group produces one or
two.  Residual bits in a padded final group are ignored, as CPython ignores
them. -/
def b64decode : Str → Option Bytes
  | [] => some []
  | c1 :: c2 :: c3 :: c4 :: rest =>
    match b64Val c1, b64Val c2 with
    | some v1, some v2 =>
      if c3 = '=' then
        if c4 = '=' ∧ rest = [] then some [v1 * 4 + v2 / 16] else none
      else
        match b64Val c3 with
        | some v3 =>
          if c4 = '=' then
            if rest = [] then some [v1 * 4 + v2 / 16, v2 % 16 * 16 + v3 / 4] else none
          else
            match b64Val c4 with
            | some v4 =>
              (b64decode rest).map
                (fun bs =>
                  (v1 * 4 + v2 / 16) :: ((v2 % 16 * 16 + v3 / 4) :: ((v3 % 4 * 64 + v4) :: bs)))
            | none => none
        | none => none
    | _, _ => none
  | _ => none

/-- The `.replace('-', '+').replace('_', '/')` character translation of
`decode_base64url`. -/
def urlBack (c : Char) : Char :=
  if c = '-' then '+' else if c = '_' then '/' else c

/-- `decode_base64url` from `Api.py`: translate the url-safe alphabet back to
the standard one, re-pad to a multiple of four, and base64-decode. -/
def decode_base64url (data : Str) : Option Bytes :=
  let d := data.map urlBack
  let padding := 4 - d.length % 4
  let d2 := if padding ≠ 4 then d ++ List.replicate padding '=' else d
  b64decode d2

/-- Python `str.split(sep)` for a one-character separator: the list of chunks
between occurrences of `sep`, with `[[]]` for the empty string. -/
def splitOnChar (sep : Char) : Str → List Str
  | [] => [[]]
  | c :: cs =>
    match splitOnChar sep cs with
    | [] => [[]]
    | h :: t => if c = sep then [] :: h :: t else (c :: h) :: t

/-! ## UTF-8 decoding (`bytes.decode("utf-8")`, used inside `json.loads`) -/

/-- Decode one UTF-8-encoded code point from a leading byte and the remaining
bytes, rejecting malformed, overlong and surrogate-encoding sequences. -/
def utf8DecodeOne (b : Nat) (rest : Bytes) : Option (Char × Bytes) :=
  if b < 0x80 then some (Char.ofNat b, rest)
  else if 0xC2 ≤ b ∧ b < 0xE0 then
    match rest with
    | b2 :: rest2 =>
      if 0x80 ≤ b2 ∧ b2 < 0xC0 then
        some (Char.ofNat ((b - 0xC0) * 64 + (b2 - 0x80)), rest2)
      else none
    | [] => none
  else if 0xE0 ≤ b ∧ b < 0xF0 then
    match rest with
    | b2 :: b3 :: rest3 =>
      if (0x80 ≤ b2 ∧ b2 < 0xC0) ∧ (0x80 ≤ b3 ∧ b3 < 0xC0) then
        let n := (b - 0xE0) * 4096 + ((b2 - 0x80) * 64 + (b3 - 0x80))
        if 0x800 ≤ n ∧ ¬(0xD800 ≤ n ∧ n < 0xE000) then some (Char.ofNat n, rest3)
        else none
      else none
    | _ => none
  else if 0xF0 ≤ b ∧ b < 0xF5 then
    match rest with
    | b2 :: b3 :: b4 :: rest4 =>
      if (0x80 ≤ b2 ∧ b2 < 0xC0) ∧ ((0x80 ≤ b3 ∧ b3 < 0xC0) ∧ (0x80 ≤ b4 ∧ b4 < 0xC0)) then
        let n := (b - 0xF0) * 262144 + ((b2 - 0x80) * 4096 + ((b3 - 0x80) * 64 + (b4 - 0x80)))
        if 0x10000 ≤ n ∧ n < 0x110000 then some (Char.ofNat n, rest4)
        else none
      else none
    | _ => none
  else none

/-- Decode a UTF-8 byte sequence, one code point per fuel unit (each code
point consumes at least one byte, so the entry point's fuel is plentiful). -/
def utf8DecodeAux : Nat → Bytes → Option Str
  | 0, _ => none
  | _ + 1, [] => some []
  | fuel + 1, b :: rest =>
    match utf8DecodeOne b rest with
    | none => none
    | some (c, rest2) => (utf8DecodeAux fuel rest2).map (c :: ·)

/-- Decode a UTF-8 byte sequence (`bytes.decode("utf-8")`). -/
def utf8Decode (bs : Bytes) : Option Str := utf8DecodeAux (bs.length + 1) bs

/-! ## The `json.loads` model

A recursive-descent parser over `Str`, with a fuel argument for totality
(`jloads` supplies more fuel than any input can consume).  Numbers are
integers: a fractional part or exponent makes the parser fail where Python
would build a float.  Lone `\uXXXX` surrogate escapes are rejected (a Lean
`Char` cannot carry them); paired surrogates are combined as Python does. -/

/-- JSON whitespace. -/
def jIsWs (c : Char) : Bool := c = ' ' ∨ c = '\t' ∨ c = '\n' ∨ c = '\r'

/-- Drop leading JSON whitespace. -/
def jSkipWs : Str → Str
  | [] => []
  | c :: cs => if jIsWs c then jSkipWs cs else c :: cs

/-- ASCII decimal digit test. -/
def jIsDigit (c : Char) : Bool := 48 ≤ c.toNat ∧ c.toNat ≤ 57

/-- Split off the maximal leading run of decimal digits. -/
def jTakeDigits : Str → Str × Str
  | [] => ([], [])
  | c :: cs =>
    if jIsDigit c then
      let (ds, r) := jTakeDigits cs
      (c :: ds, r)
    else ([], c :: cs)

/-- The number denoted by a digit run. -/
def digitsVal (ds : Str) : Nat :=
  ds.foldl (fun acc c => acc * 10 + (c.toNat - 48)) 0

/-- Parse a JSON natural-number literal: a nonempty digit run with no
redundant leading zero. -/
def jParseNat (s : Str) : Option (Nat × Str) :=
  match jTakeDigits s with
  | ([], _) => none
  | (d :: ds, r) =>
    if d = '0' ∧ ds ≠ [] then none else some (digitsVal (d :: ds), r)

/-- Parse a JSON integer literal (optional minus sign). -/
def jParseInt : Str → Option (Int × Str)
  | [] => none
  | c :: r =>
    if c = '-' then (jParseNat r).map (fun p => (-(p.1 : Int), p.2))
    else (jParseNat (c :: r)).map (fun p => ((p.1 : Int), p.2))

/-- The value of one hexadecimal digit. -/
def hexDigitVal (c : Char) : Option Nat :=
  if '0' ≤ c ∧ c ≤ '9' then some (c.toNat - 48)
  else if 'a' ≤ c ∧ c ≤ 'f' then some (c.toNat - 87)
  else if 'A' ≤ c ∧ c ≤ 'F' then some (c.toNat - 55)
  else none

/-- The value of four hexadecimal digits. -/
def hex4 (a b c d : Char) : Option Nat := do
  let va ← hexDigitVal a
  let vb ← hexDigitVal b
  let vc ← hexDigitVal c
  let vd ← hexDigitVal d
  some (va * 4096 + (vb * 256 + (vc * 16 + vd)))

/-- Single-character JSON escapes. -/
def jUnescape : Char → Option Char
  | 'b' => some (Char.ofNat 8)
  | 'f' => some (Char.ofNat 12)
  | 'n' => some (Char.ofNat 10)
  | 'r' => some (Char.ofNat 13)
  | 't' => some (Char.ofNat 9)
  | '/' => some '/'
  | '"' => some '"'
  | '\\' => some '\\'
  | _ => none

/-- One step of JSON string-body parsing, on the next character and the
remaining input.  `some (none, r)` is the closing quote, `some (some ch, r)`
one decoded character, `none` an error.  Raw control characters are rejected
(Python's `strict=True`); `\uXXXX` surrogates must come in pairs. -/
def jStrStep (c : Char) (rest : Str) : Option (Option Char × Str) :=
  if c = '"' then some (none, rest)
  else if c = '\\' then
    match rest with
    | [] => none
    | e :: rest1 =>
      if e = 'u' then
        match rest1 with
        | h1 :: h2 :: h3 :: h4 :: rest2 =>
          match hex4 h1 h2 h3 h4 with
          | none => none
          | some n =>
            if n < 0xD800 ∨ 0xE000 ≤ n then some (some (Char.ofNat n), rest2)
            else if n < 0xDC00 then
              match rest2 with
              | e2 :: u2 :: g1 :: g2 :: g3 :: g4 :: rest3 =>
                if e2 = '\\' ∧ u2 = 'u' then
                  match hex4 g1 g2 g3 g4 with
                  | some m =>
                    if 0xDC00 ≤ m ∧ m < 0xE000 then
                      some (some (Char.ofNat (0x10000 + ((n - 0xD800) * 1024 + (m - 0xDC00)))),
                        rest3)
                    else none
                  | none => none
                else none
              | _ => none
            else none
        | _ => none
      else (jUnescape e).map (fun ch => (some ch, rest1))
  else if c.toNat < 0x20 then none
  else some (some c, rest)

/-- Parse the body of a JSON string after the opening quote, accumulating in
reverse, one decoded character per fuel unit (each consumes at least one
input character, so the callers' fuel is plentiful). -/
def jParseStrAux : Nat → Str → Str → Option (Str × Str)
  | 0, _, _ => none
  | _ + 1, _, [] => none
  | fuel + 1, acc, c :: rest =>
    match jStrStep c rest with
    | none => none
    | some (none, r) => some (acc.reverse, r)
    | some (some ch, r) => jParseStrAux fuel (ch :: acc) r

/-- Rebuild a Python `dict` from parsed members: first occurrence fixes the
position, the last occurrence fixes the value. -/
def buildObj (ms : List (Str × Json)) : List (Str × Json) :=
  ms.foldl (fun acc kv => insertKV acc kv.1 kv.2) []

/-- The opening brace character. -/
def obraceC : Char := Char.ofNat 123

/-- The closing brace character. -/
def cbraceC : Char := Char.ofNat 125

mutual

/-- Parse one JSON value (fuel-bounded recursive descent). -/
def jParseVal : Nat → Str → Option (Json × Str)
  | 0, _ => none
  | fuel + 1, s =>
    match jSkipWs s with
    | [] => none
    | c :: r =>
      if c = 'n' then
        match r with
        | 'u' :: 'l' :: 'l' :: r1 => some (.null, r1)
        | _ => none
      else if c = 't' then
        match r with
        | 'r' :: 'u' :: 'e' :: r1 => some (.bool true, r1)
        | _ => none
      else if c = 'f' then
        match r with
        | 'a' :: 'l' :: 's' :: 'e' :: r1 => some (.bool false, r1)
        | _ => none
      else if c = '"' then (jParseStrAux (r.length + 1) [] r).map (fun p => (.str p.1, p.2))
      else if c = '[' then
        match jSkipWs r with
        | [] => none
        | c2 :: r1 =>
          if c2 = ']' then some (.arr [], r1)
          else (jParseItems fuel (c2 :: r1)).map (fun p => (.arr p.1, p.2))
      else if c = obraceC then
        match jSkipWs r with
        | [] => none
        | c2 :: r1 =>
          if c2 = cbraceC then some (.obj [], r1)
          else (jParseMembers fuel (c2 :: r1)).map (fun p => (.obj (buildObj p.1), p.2))
      else if c = '-' ∨ jIsDigit c then
        (jParseInt (c :: r)).map (fun p => (.num p.1, p.2))
      else none

/-- Parse one or more comma-separated array items up to the closing bracket. -/
def jParseItems : Nat → Str → Option (List Json × Str)
  | 0, _ => none
  | fuel + 1, s =>
    match jParseVal fuel s with
    | none => none
    | some (v, r) =>
      match jSkipWs r with
      | [] => none
      | c :: r1 =>
        if c = ',' then (jParseItems fuel r1).map (fun p => (v :: p.1, p.2))
        else if c = ']' then some ([v], r1)
        else none

/-- Parse one or more comma-separated object members up to the closing brace. -/
def jParseMembers : Nat → Str → Option (List (Str × Json) × Str)
  | 0, _ => none
  | fuel + 1, s =>
    match jSkipWs s with
    | [] => none
    | c :: r =>
      if c = '"' then
        match jParseStrAux (r.length + 1) [] r with
        | none => none
        | some (key, r1) =>
          match jSkipWs r1 with
          | [] => none
          | c2 :: r2 =>
            if c2 = ':' then
              match jParseVal fuel r2 with
              | none => none
              | some (v, r3) =>
                match jSkipWs r3 with
                | [] => none
                | c3 :: r4 =>
                  if c3 = ',' then
                    (jParseMembers fuel r4).map (fun p => ((key, v) :: p.1, p.2))
                  else if c3 = cbraceC then some ([(key, v)], r4)
                  else none
            else none
      else none

end

/-- Parse a complete JSON document from a string: one value, then only
whitespace. -/
def jloadsStr (s : Str) : Option Json :=
  match jParseVal (s.length + 1) s with
  | none => none
  | some (j, r) => if jSkipWs r = [] then some j else none

/-- `json.loads` on bytes: UTF-8 decode, then parse.  The error strings stand
in for the library's `UnicodeDecodeError` / `JSONDecodeError` messages. -/
def json_loads (bs : Bytes) : Except Str Json :=
  match utf8Decode bs with
  | none => .error "invalid utf-8".data
  | some s =>
    match jloadsStr s with
    | none => .error "Expecting value".data
    | some j => .ok j

/-! ## `parse_jwt_without_verification` -/

/-- The result of `parse_jwt_without_verification`: unverified header and
payload, with the third segment kept verbatim. -/
structure ParsedJwt where
  header : Json
  payload : Json
  signature : Str
deriving DecidableEq

/-- The body of `parse_jwt_without_verification`'s `try` block on an actual
string: split on dots into exactly three segments, base64url-decode and
JSON-parse the first two. -/
def parse_jwt_inner (t : Str) : Except Str ParsedJwt :=
  match splitOnChar '.' t with
  | [p0, p1, p2] =>
    match decode_base64url p0 with
    | none => .error "Invalid base64 padding".data
    | some hb =>
      match json_loads hb with
      | .error e => .error e
      | .ok header =>
        match decode_base64url p1 with
        | none => .error "Invalid base64 padding".data
        | some pb =>
          match json_loads pb with
          | .error e => .error e
          | .ok payload => .ok ⟨header, payload, p2⟩
  | _ => .error "Invalid JWT format".data

/-- `parse_jwt_without_verification` from `Api.py`: any exception is caught
and re-raised as `ValueError` with the `Failed to parse JWT: ` prefix.  A
`none` token models Python `None` (the `AttributeError` from `None.split`). -/
def parse_jwt_without_verification (token : Option Str) : Except Str ParsedJwt :=
  match token with
  | none => .error ("Failed to parse JWT: ".data ++ "NoneType object has no attribute split".data)
  | some t => (parse_jwt_inner t).mapError (fun e => "Failed to parse JWT: ".data ++ e)

/-! ## Python container semantics needed by `extract_credentials_from_vp` -/

/-- Prefix test on character lists. -/
def startsWithStr : Str → Str → Bool
  | c :: cs, d :: ds => c = d && startsWithStr cs ds
  | rest, _ => rest.isEmpty

/-- Substring test on character lists (Python `needle in hay` on `str`). -/
def strHasSub (needle : Str) : Str → Bool
  | [] => needle.isEmpty
  | c :: cs => startsWithStr needle (c :: cs) || strHasSub needle cs

/-- Python `needle in container` for a string needle: key test on a `dict`,
membership on a `list`, substring on a `str`, `TypeError` otherwise. -/
def pyContains (needle : Str) : Json → Except Str Bool
  | .obj kvs => .ok (lookupKV kvs needle).isSome
  | .arr xs => .ok (xs.any (fun x => Json.beq x (.str needle)))
  | .str s => .ok (strHasSub needle s)
  | _ => .error "TypeError: argument is not iterable".data

/-- Python `container[key]` for a string key: `dict` lookup, `TypeError` on
every other value (including `list` and `str`). -/
def pySubscript (j : Json) (key : Str) : Except Str Json :=
  match j with
  | .obj kvs =>
    match lookupKV kvs key with
    | some v => .ok v
    | none => .error "KeyError".data
  | _ => .error "TypeError: not subscriptable".data

/-- Python `value.get(key)`: present only on `dict`s, `AttributeError`
otherwise. -/
def pyDictGet (j : Json) (key : Str) : Except Str (Option Json) :=
  match j with
  | .obj kvs => .ok (lookupKV kvs key)
  | _ => .error "AttributeError: object has no attribute get".data

/-! ## `extract_credentials_from_vp` -/

/-- One extracted credential entry, as appended by
`extract_credentials_from_vp`. -/
inductive Cred where
  | jwtCred (header : Json) (payload : Json)
  | strCred (value : Str)
  | objCred (data : Json)
deriving DecidableEq

/-- The per-item body of the extraction loop: a string item is parsed as a
JWT, any parse failure falling back to the opaque string; a non-string item is
kept as an object credential. -/
def credOfVc (vc : Json) : Cred :=
  match vc with
  | .str s =>
    match parse_jwt_without_verification (some s) with
    | .ok p => .jwtCred p.header p.payload
    | .error _ => .strCred s
  | _ => .objCred vc

/-- `extract_credentials_from_vp` from `Api.py`.  The walk down
`payload["vp"]["verifiableCredential"]` can raise a `TypeError` (modelled as
`.error`) when a membership test or subscript hits a non-container value. -/
def extract_credentials_from_vp (payload : Json) : Except Str (List Cred) := do
  let hasVp ← pyContains "vp".data payload
  if hasVp then
    let vp ← pySubscript payload "vp".data
    let hasVc ← pyContains "verifiableCredential".data vp
    if hasVc then
      let vcs ← pySubscript vp "verifiableCredential".data
      match vcs with
      | .arr items => return items.map credOfVc
      | _ => return []
    else
      return []
  else
    return []

/-! ## Sessions and the session store -/

/-- The session status strings assigned anywhere in `Api.py`
(`pending`, `completed`, `failed`), plus `error`, which the spec's
enumeration lists; no code path assigns it. -/
inductive SessionStatus where
  | pending
  | completed
  | failed
  | error
deriving DecidableEq

/-- The `session["decoded"]` dictionary built on a successful callback. -/
structure DecodedPresentation where
  header : Json
  payload : Json
  credentials : List Cred
  holder : Option Json
deriving DecidableEq

/-- One entry of `presentation_sessions`.  The keys `decoded`,
`completed_at` and `error` are absent at creation (`none`). -/
structure Session where
  state : Str
  nonce : Str
  requested_credentials : List Str
  purpose : Str
  created_at : Str
  status : SessionStatus
  vp_token : Option Str
  decoded : Option DecodedPresentation
  completed_at : Option Str
  error : Option Str
deriving DecidableEq

/-- The in-memory `presentation_sessions` dictionary. -/
abbrev Store := List (Str × Session)

/-- `presentation_sessions[request_id]`, `none` when absent. -/
def storeGet : Store → Str → Option Session
  | [], _ => none
  | (k, s) :: rest, id => if k = id then some s else storeGet rest id

/-- Write back a session under its id (in-place value update). -/
def storeSet : Store → Str → Session → Store
  | [], id, s => [(id, s)]
  | (k, v) :: rest, id, s =>
    if k = id then (k, s) :: rest else (k, v) :: storeSet rest id s

/-! ## The `receive_presentation` handler (the callback) -/

/-- The callback request body: `vp_token` and `state` are read with `.get`
(`none` when missing); an `error` indicator may ride along, as in the spec's
body schema `\x7btoken, state, error?\x7d` — the handler never reads it. -/
structure CallbackBody where
  vp_token : Option Str
  state : Option Str
  error : Option Str
deriving DecidableEq

/-- The handler's observable HTTP outcome. -/
inductive CallbackResult where
  | notFound
  | invalidState
  | invalidToken (detail : Str)
  | success
deriving DecidableEq

/-- The holder computation of `receive_presentation` (and `decode_vp_token`):
`payload.get("iss") or payload.get("sub")`, raising `AttributeError` when the
payload is not a dictionary. -/
def resolveHolder (payload : Json) : Except Str (Option Json) := do
  let issV ← pyDictGet payload "iss".data
  let subV ← pyDictGet payload "sub".data
  return pyOr issV subV

/-- The `try` block of `receive_presentation`: parse the token, extract the
credentials, resolve the holder as `payload.get("iss") or payload.get("sub")`. -/
def callbackOutcome (vp_token : Option Str) : Except Str DecodedPresentation := do
  let parsed ← parse_jwt_without_verification vp_token
  let credentials ← extract_credentials_from_vp parsed.payload
  let holder ← resolveHolder parsed.payload
  return ⟨parsed.header, parsed.payload, credentials, holder⟩

/-- `receive_presentation` from `Api.py`: look the session up (404 when
absent), reject on state mismatch (400, nothing written), then either record
the decoded presentation with status `completed`, or record status `failed`
with the exception text and answer 400. -/
def receive_presentation (sessions : Store) (request_id : Str) (body : CallbackBody)
    (now : Str) : CallbackResult × Store :=
  match storeGet sessions request_id with
  | none => (.notFound, sessions)
  | some session =>
    if body.state ≠ some session.state then (.invalidState, sessions)
    else
      match callbackOutcome body.vp_token with
      | .ok d =>
        let s2 := { session with
                      status := .completed
                      vp_token := body.vp_token
                      decoded := some d
                      completed_at := some now }
        (.success, storeSet sessions request_id s2)
      | .error e =>
        let s2 := { session with status := .failed, error := some e }
        (.invalidToken e, storeSet sessions request_id s2)

/-! ## The `get_presentation_status` handler -/

/-- The status-dependent part of the status response: `completed` adds
`completed_at` and `decoded`, `failed` adds `error`, anything else adds
nothing. -/
inductive StatusExtra where
  | base
  | onCompleted (completed_at : Option Str) (decoded : Option DecodedPresentation)
  | onFailed (error : Option Str)
deriving DecidableEq

/-- The status response body. -/
structure StatusResponse where
  request_id : Str
  status : SessionStatus
  created_at : Str
  extra : StatusExtra
deriving DecidableEq

/-- `get_presentation_status` from `Api.py`: a pure read (404 when the id is
unknown); the store is returned unchanged — the handler performs no write. -/
def get_presentation_status (sessions : Store) (request_id : Str) :
    Option StatusResponse × Store :=
  match storeGet sessions request_id with
  | none => (none, sessions)
  | some session =>
    let extra :=
      if session.status = .completed then
        StatusExtra.onCompleted session.completed_at session.decoded
      else if session.status = .failed then StatusExtra.onFailed session.error
      else StatusExtra.base
    (some ⟨request_id, session.status, session.created_at, extra⟩, sessions)

/-! ## The `get_presentation_request` handler -/

/-- Python `"|".join(parts)`. -/
def joinBar : List Str → Str
  | [] => []
  | [s] => s
  | s :: rest => s ++ '|' :: joinBar rest

/-- The wallet-facing request view: the presentation definition fields the
handler rebuilds from the session, plus the stored `nonce` and `state`,
returned verbatim. -/
structure RequestResponse where
  definition_id : Str
  descriptor_name : Str
  descriptor_purpose : Str
  type_pattern : Str
  nonce : Str
  state : Str
deriving DecidableEq

/-- `get_presentation_request` from `Api.py`: 404 when the id is unknown,
otherwise the presentation definition plus the session's `nonce` and
`state`. -/
def get_presentation_request (sessions : Store) (request_id : Str) :
    Option RequestResponse :=
  match storeGet sessions request_id with
  | none => none
  | some session =>
    some ⟨request_id, session.purpose, session.purpose,
          joinBar session.requested_credentials, session.nonce, session.state⟩

/-! ## The synthetic encoder for the round-trip claim

The spec's round-trip property speaks of "encoding a JSON object as the middle
segment of a synthetic 3-part token".  The repository has no encoder, so the
encoding side is synthetic by construction: a canonical JSON serializer (no
whitespace, minimal escaping), UTF-8 encoding, and base64url with or without
padding. -/

/-- The ASCII character of a decimal digit. -/
def digitChar (n : Nat) : Char := Char.ofNat (48 + n)

/-- Decimal digits of a natural number, most significant first, with a fuel
argument for structural recursion (any `fuel > n` is enough, since `n / 10`
shrinks strictly). -/
def natCharsAux : Nat → Nat → Str
  | 0, _ => []
  | fuel + 1, n =>
    if n < 10 then [digitChar n]
    else natCharsAux fuel (n / 10) ++ [digitChar (n % 10)]

/-- Decimal digits of a natural number, most significant first. -/
def natChars (n : Nat) : Str := natCharsAux (n + 1) n

/-- Decimal rendering of an integer. -/
def intChars (i : Int) : Str :=
  if i < 0 then '-' :: natChars i.natAbs else natChars i.natAbs

/-- Lowercase hexadecimal digit character. -/
def hexDigitChar (n : Nat) : Char :=
  if n < 10 then Char.ofNat (48 + n) else Char.ofNat (87 + n)

/-- Escape one character for a JSON string literal: quote, backslash, and
control characters (as `\u00XX`); everything else verbatim. -/
def jEscapeChar (c : Char) : Str :=
  if c = '"' then '\\' :: ['"']
  else if c = '\\' then '\\' :: ['\\']
  else if c.toNat < 0x20 then
    '\\' :: 'u' :: '0' :: '0' ::
      hexDigitChar (c.toNat / 16) :: [hexDigitChar (c.toNat % 16)]
  else [c]

/-- Escape a whole string body. -/
def jEscape : Str → Str
  | [] => []
  | c :: cs => jEscapeChar c ++ jEscape cs

mutual

/-- Serialize a JSON value canonically (no whitespace). -/
def Json.dumps : Json → Str
  | .null => 'n' :: 'u' :: 'l' :: ['l']
  | .bool true => 't' :: 'r' :: 'u' :: ['e']
  | .bool false => 'f' :: 'a' :: 'l' :: 's' :: ['e']
  | .num i => intChars i
  | .str s => '"' :: (jEscape s ++ ['"'])
  | .arr xs => '[' :: (dumpsItems xs ++ [']'])
  | .obj kvs => obraceC :: (dumpsMembers kvs ++ [cbraceC])

/-- Comma-separated serialized array items. -/
def dumpsItems : List Json → Str
  | [] => []
  | [x] => Json.dumps x
  | x :: y :: rest => Json.dumps x ++ ',' :: dumpsItems (y :: rest)

/-- Comma-separated serialized object members. -/
def dumpsMembers : List (Str × Json) → Str
  | [] => []
  | [(k, v)] => '"' :: (jEscape k ++ ('"' :: (':' :: Json.dumps v)))
  | (k, v) :: m :: rest =>
    '"' :: (jEscape k ++ ('"' :: (':' :: (Json.dumps v ++ ',' :: dumpsMembers (m :: rest)))))

end

/-- String membership in a list of strings. -/
def keyMem (k : Str) : List Str → Bool
  | [] => false
  | k2 :: ks => k2 = k || keyMem k ks

/-- No string occurs twice in the list. -/
def distinctKeys : List Str → Bool
  | [] => true
  | k :: ks => !(keyMem k ks) && distinctKeys ks

mutual

/-- Well-formedness of a JSON value as a Python object: every object's keys
are distinct (a Python `dict` cannot hold duplicates). -/
def Json.wf : Json → Bool
  | .null => true
  | .bool _ => true
  | .num _ => true
  | .str _ => true
  | .arr xs => wfItems xs
  | .obj kvs => distinctKeys (kvs.map Prod.fst) && wfMembers kvs

/-- All array items well-formed. -/
def wfItems : List Json → Bool
  | [] => true
  | x :: xs => x.wf && wfItems xs

/-- All member values well-formed. -/
def wfMembers : List (Str × Json) → Bool
  | [] => true
  | (_, v) :: kvs => v.wf && wfMembers kvs

end

/-- UTF-8 bytes of one character. -/
def utf8EncodeChar (c : Char) : Bytes :=
  let n := c.toNat
  if n < 0x80 then [n]
  else if n < 0x800 then [0xC0 + n / 64, 0x80 + n % 64]
  else if n < 0x10000 then [0xE0 + n / 4096, 0x80 + n / 64 % 64, 0x80 + n % 64]
  else [0xF0 + n / 262144, 0x80 + n / 4096 % 64, 0x80 + n / 64 % 64, 0x80 + n % 64]

/-- UTF-8 bytes of a string. -/
def utf8Encode : Str → Bytes
  | [] => []
  | c :: cs => utf8EncodeChar c ++ utf8Encode cs

/-- The standard base64 alphabet character of a sextet. -/
def b64Char (n : Nat) : Char :=
  if n < 26 then Char.ofNat (65 + n)
  else if n < 52 then Char.ofNat (71 + n)
  else if n < 62 then Char.ofNat (n - 4)
  else if n = 62 then '+'
  else '/'

/-- Base64-encode, returning the alphabet characters and the number of `=`
padding characters the final group calls for. -/
def b64encodeCore : Bytes → Str × Nat
  | [] => ([], 0)
  | [b1] => ([b64Char (b1 / 4), b64Char (b1 % 4 * 16)], 2)
  | [b1, b2] => ([b64Char (b1 / 4), b64Char (b1 % 4 * 16 + b2 / 16), b64Char (b2 % 16 * 4)], 1)
  | b1 :: b2 :: b3 :: rest =>
    (b64Char (b1 / 4) ::
       (b64Char (b1 % 4 * 16 + b2 / 16) ::
          (b64Char (b2 % 16 * 4 + b3 / 64) :: (b64Char (b3 % 64) :: (b64encodeCore rest).1))),
     (b64encodeCore rest).2)

/-- The standard-to-url-safe alphabet translation. -/
def urlFwd (c : Char) : Char := if c = '+' then '-' else if c = '/' then '_' else c

/-- Base64url-encode bytes, padded (`=`-terminated) or unpadded. -/
def b64urlEncode (padded : Bool) (bs : Bytes) : Str :=
  let (s, p) := b64encodeCore bs
  s.map urlFwd ++ (if padded then List.replicate p '=' else [])

/-- The synthetic three-part token of the round-trip claim: two base64url
segments holding the serialized header and payload, and a verbatim third
segment. -/
def mkToken (pad1 pad2 : Bool) (header payload : Json) (sig : Str) : Str :=
  b64urlEncode pad1 (utf8Encode header.dumps) ++
    '.' :: (b64urlEncode pad2 (utf8Encode payload.dumps) ++ '.' :: sig)

/-! ## Spec-side definition for the holder-precedence claim (C3) -/

/-- Modelled from the spec (refinement side of the holder claim): "`holder` is
resolved by a fixed precedence: issuer claim, else subject claim, else a
nested confirmation-key identifier, else null", reading presence of the claim
as selecting it and the confirmation-key identifier as `cnf.kid`. -/
def holderSpecPrecedence (payload : Json) : Option Json :=
  match payload.get "iss".data with
  | some v => some v
  | none =>
    match payload.get "sub".data with
    | some v => some v
    | none =>
      match payload.get "cnf".data with
      | some cnf =>
        match cnf.get "kid".data with
        | some v => some v
        | none => none
      | none => none

/-! ## Concrete fixtures for witnesses and counterexamples -/

instance {ε α : Type} [DecidableEq ε] [DecidableEq α] : DecidableEq (Except ε α) := fun a b =>
  match a, b with
  | .ok x, .ok y => decidable_of_iff (x = y) (by simp)
  | .error x, .error y => decidable_of_iff (x = y) (by simp)
  | .ok _, .error _ => isFalse (by simp)
  | .error _, .ok _ => isFalse (by simp)

/-- The wrapped message `receive_presentation` stores for a token with the
wrong number of segments. -/
def jwtFormatErr : Str := "Failed to parse JWT: ".data ++ "Invalid JWT format".data

/-- The wrapped message stored when the callback body carries no token at
all. -/
def noneTokenErr : Str :=
  "Failed to parse JWT: ".data ++ "NoneType object has no attribute split".data

/-- A freshly created (pending) session with state `"S"`. -/
def sessPending : Session :=
  ⟨['S'], ['N'], ["VerifiableId".data], "Verification".data, ['C'],
   .pending, none, none, none, none⟩

/-- A decoded presentation as stored by a completed callback. -/
def decodedA : DecodedPresentation :=
  ⟨Json.obj [("alg".data, Json.str "none".data)],
   Json.obj [("iss".data, Json.str "did:a".data)],
   [], some (Json.str "did:a".data)⟩

/-- A session that already reached the terminal status `completed`. -/
def sessCompleted : Session :=
  ⟨['S'], ['N'], ["VerifiableId".data], "Verification".data, ['C'],
   .completed, some "h.p.s".data, some decodedA, some ['T'], none⟩

/-! ## Helper lemmas -/

theorem storeGet_storeSet_self (st : Store) (id : Str) (v : Session) :
    storeGet (storeSet st id v) id = some v := by
  induction st with
  | nil => simp [storeSet, storeGet]
  | cons kv rest ih =>
    obtain ⟨k, s⟩ := kv
    by_cases h : k = id <;> simp [storeSet, storeGet, h, ih]

/-- The callback handler, when the session exists and the state matches,
re-runs the full processing pipeline whatever the current status: the result
is decided by `callbackOutcome` alone. -/
theorem receive_found (sessions : Store) (id : Str) (s : Session) (body : CallbackBody)
    (now : Str) (hget : storeGet sessions id = some s) (hstate : body.state = some s.state) :
    receive_presentation sessions id body now =
      match callbackOutcome body.vp_token with
      | .ok d => (.success, storeSet sessions id
          { s with status := .completed, vp_token := body.vp_token,
                   decoded := some d, completed_at := some now })
      | .error e => (.invalidToken e, storeSet sessions id
          { s with status := .failed, error := some e }) := by
  unfold receive_presentation
  rw [hget]
  simp [hstate]

/-- A failing `parse_jwt_without_verification` short-circuits the whole `try`
block of the handler. -/
theorem callbackOutcome_parse_error (tok : Option Str) (e : Str)
    (h : parse_jwt_without_verification tok = .error e) :
    callbackOutcome tok = .error e := by
  unfold callbackOutcome
  rw [h]
  rfl

/-- A token with a number of dot-segments other than three fails the `try`
block with the `Invalid JWT format` message. -/
theorem callbackOutcome_bad_segments (t : Str)
    (h : (splitOnChar '.' t).length ≠ 3) :
    callbackOutcome (some t) = .error jwtFormatErr := by
  have hinner : parse_jwt_inner t = .error "Invalid JWT format".data := by
    unfold parse_jwt_inner
    rcases hs : splitOnChar '.' t with _ | ⟨a, _ | ⟨b, _ | ⟨c, _ | ⟨d, e⟩⟩⟩⟩ <;>
      first
        | rfl
        | (exact absurd (by rw [hs]; rfl) h)
  refine callbackOutcome_parse_error (some t) jwtFormatErr ?_
  have hw : parse_jwt_without_verification (some t)
      = (parse_jwt_inner t).mapError (fun e => "Failed to parse JWT: ".data ++ e) := rfl
  rw [hw, hinner]
  rfl

/-! ## C2 — state mismatch rejected, session untouched -/

/-- **C2.** A callback whose presented state differs from the stored state is
rejected with the 400-class `invalidState` outcome and the store — hence the
session — is returned completely unchanged. -/
theorem c2_state_mismatch (sessions : Store) (id : Str) (s : Session)
    (body : CallbackBody) (now : Str)
    (hget : storeGet sessions id = some s) (hne : body.state ≠ some s.state) :
    receive_presentation sessions id body now = (.invalidState, sessions) := by
  unfold receive_presentation
  rw [hget]
  simp [hne]

theorem c2_state_mismatch_witness :
    receive_presentation [(['r'], sessPending)] ['r'] ⟨some "x.y.z".data, some ['X'], none⟩ ['T']
      = (.invalidState, [(['r'], sessPending)]) :=
  c2_state_mismatch [(['r'], sessPending)] ['r'] sessPending
    ⟨some "x.y.z".data, some ['X'], none⟩ ['T'] (by decide) (by decide)

/-! ## C6 — short token: failed plus recorded reason, 400 answer -/

/-- **C6.** For a pending session, a callback with matching state whose token
has fewer than three dot-segments stores status `failed` with the recorded
`Invalid JWT format` reason and answers with the 400-class `invalidToken`
outcome. -/
theorem c6_short_token (sessions : Store) (id : Str) (s : Session)
    (body : CallbackBody) (now : Str) (t : Str)
    (hget : storeGet sessions id = some s) (hpend : s.status = .pending)
    (hstate : body.state = some s.state) (htok : body.vp_token = some t)
    (hshort : (splitOnChar '.' t).length < 3) :
    receive_presentation sessions id body now =
      (.invalidToken jwtFormatErr,
        storeSet sessions id { s with status := .failed, error := some jwtFormatErr }) := by
  rw [receive_found sessions id s body now hget hstate, htok,
      callbackOutcome_bad_segments t (by omega)]

theorem c6_short_token_witness :
    receive_presentation [(['r'], sessPending)] ['r'] ⟨some "a.b".data, some ['S'], none⟩ ['T']
      = (.invalidToken jwtFormatErr,
          [(['r'], { sessPending with status := .failed, error := some jwtFormatErr })]) :=
  c6_short_token [(['r'], sessPending)] ['r'] sessPending
    ⟨some "a.b".data, some ['S'], none⟩ ['T'] "a.b".data
    rfl rfl rfl rfl (by decide)

/-! ## C1 — terminal sessions are not protected: corrected -/

/-- **C1, counterexample.** The claim says a terminal session is never changed
by a later callback.  In the code there is no status guard: a `completed`
session that receives a second callback with matching state and a two-segment
token is overwritten to `failed` — a terminal-to-terminal transition that also
originates outside `pending`. -/
theorem c1_counterexample :
    sessCompleted.status = .completed ∧
    (storeGet (receive_presentation [(['r'], sessCompleted)] ['r']
        ⟨some "a.b".data, some ['S'], none⟩ ['T']).2 ['r']).map Session.status
      = some .failed := by decide

/-- **C1, amended.** The callback handler never consults the stored status: for
a session in any status, a matching-state callback is processed from scratch,
overwriting status, holder and decoded claims according to the new token alone
(successful parse ⇒ `completed` with fresh `decoded`; failed parse ⇒ `failed`
with the new error). -/
theorem c1_no_terminal_guard (sessions : Store) (id : Str) (s : Session)
    (body : CallbackBody) (now : Str)
    (hget : storeGet sessions id = some s) (hstate : body.state = some s.state) :
    (∀ d, callbackOutcome body.vp_token = .ok d →
      receive_presentation sessions id body now = (.success, storeSet sessions id
        { s with status := .completed, vp_token := body.vp_token,
                 decoded := some d, completed_at := some now })) ∧
    (∀ e, callbackOutcome body.vp_token = .error e →
      receive_presentation sessions id body now = (.invalidToken e, storeSet sessions id
        { s with status := .failed, error := some e })) := by
  have h := receive_found sessions id s body now hget hstate
  constructor
  · intro d hd
    rw [h, hd]
  · intro e he
    rw [h, he]

theorem c1_no_terminal_guard_witness :
    receive_presentation [(['r'], sessCompleted)] ['r']
        ⟨some "a.b".data, some ['S'], none⟩ ['T']
      = (.invalidToken jwtFormatErr,
          [(['r'], { sessCompleted with status := .failed, error := some jwtFormatErr })]) :=
  (c1_no_terminal_guard [(['r'], sessCompleted)] ['r'] sessCompleted
      ⟨some "a.b".data, some ['S'], none⟩ ['T'] (by decide) (by decide)).2
    jwtFormatErr (by decide)

/-! ## C4 — the error indicator is ignored: corrected -/

/-- **C4, counterexample.** The claim says an explicit error indicator in the
callback body moves a pending session to the terminal status `error`.  The
handler never reads the indicator: with a matching state and no token the
session ends `failed`, not `error`. -/
theorem c4_counterexample :
    sessPending.status = .pending ∧
    (storeGet (receive_presentation [(['r'], sessPending)] ['r']
        ⟨none, some ['S'], some "access_denied".data⟩ ['T']).2 ['r']).map Session.status
      = some .failed ∧
    SessionStatus.failed ≠ SessionStatus.error := by decide

/-- **C4, amended.** The callback body's error indicator is ignored: the
handler's result is identical with and without it, and no callback ever stores
the status `error` — the only statuses it writes are `completed` and
`failed`. -/
theorem c4_error_indicator_ignored (sessions : Store) (id : Str)
    (body : CallbackBody) (now : Str) (e : Str) :
    receive_presentation sessions id { body with error := some e } now
      = receive_presentation sessions id { body with error := none } now ∧
    (∀ s s', storeGet sessions id = some s → s.status ≠ .error →
      storeGet (receive_presentation sessions id body now).2 id = some s' →
      s'.status ≠ .error) := by
  constructor
  · rfl
  · intro s s' hget hne hget'
    unfold receive_presentation at hget'
    rw [hget] at hget'
    by_cases hstate : body.state = some s.state
    · simp only [hstate, ne_eq, not_true_eq_false, if_false] at hget'
      rcases hout : callbackOutcome body.vp_token with d | d <;>
        · rw [hout] at hget'
          simp only [storeGet_storeSet_self] at hget'
          cases hget'
          simp
    · simp only [if_pos hstate] at hget'
      rw [hget] at hget'
      cases hget'
      exact hne

theorem c4_error_indicator_ignored_witness :
    receive_presentation [(['r'], sessPending)] ['r']
        ⟨none, some ['S'], some "access_denied".data⟩ ['T']
      = receive_presentation [(['r'], sessPending)] ['r'] ⟨none, some ['S'], none⟩ ['T'] ∧
    ({ sessPending with status := .failed, error := some noneTokenErr } : Session).status
      ≠ .error :=
  ⟨(c4_error_indicator_ignored [(['r'], sessPending)] ['r']
      ⟨none, some ['S'], none⟩ ['T'] "access_denied".data).1,
   (c4_error_indicator_ignored [(['r'], sessPending)] ['r']
      ⟨none, some ['S'], some "access_denied".data⟩ ['T'] "access_denied".data).2
     sessPending { sessPending with status := .failed, error := some noneTokenErr }
     (by decide) (by decide) (by decide)⟩

/-! ## C7 — completedAt: corrected -/

/-- **C7, counterexample.** The claim says `completed_at` is set on the first
transition to any terminal status.  A pending session transitioning to the
terminal status `failed` (matching state, two-segment token) gets no
`completed_at` at all. -/
theorem c7_counterexample :
    (storeGet (receive_presentation [(['r'], sessPending)] ['r']
        ⟨some "a.b".data, some ['S'], none⟩ ['T']).2 ['r']).map
        (fun s => (s.status, s.completed_at))
      = some (.failed, none) := by decide

/-- **C7, amended.** `completed_at` is written (to the callback's time) on
every transition to `completed` — including a re-processing overwrite — and is
left untouched on a transition to `failed`. -/
theorem c7_completed_at (sessions : Store) (id : Str) (s : Session)
    (body : CallbackBody) (now : Str)
    (hget : storeGet sessions id = some s) (hstate : body.state = some s.state) :
    (∀ d, callbackOutcome body.vp_token = .ok d →
      ∀ s', storeGet (receive_presentation sessions id body now).2 id = some s' →
        s'.completed_at = some now ∧ s'.status = .completed) ∧
    (∀ e, callbackOutcome body.vp_token = .error e →
      ∀ s', storeGet (receive_presentation sessions id body now).2 id = some s' →
        s'.completed_at = s.completed_at ∧ s'.status = .failed) := by
  have h := receive_found sessions id s body now hget hstate
  constructor
  · intro d hd s' hs'
    rw [h, hd] at hs'
    simp only [storeGet_storeSet_self] at hs'
    cases hs'
    exact ⟨rfl, rfl⟩
  · intro e he s' hs'
    rw [h, he] at hs'
    simp only [storeGet_storeSet_self] at hs'
    cases hs'
    exact ⟨rfl, rfl⟩

theorem c7_completed_at_witness :
    ({ sessPending with status := .failed, error := some jwtFormatErr } : Session).completed_at
        = sessPending.completed_at ∧
    ({ sessPending with status := .failed, error := some jwtFormatErr } : Session).status
        = .failed :=
  (c7_completed_at [(['r'], sessPending)] ['r'] sessPending
      ⟨some "a.b".data, some ['S'], none⟩ ['T'] (by decide) (by decide)).2
    jwtFormatErr (by decide)
    { sessPending with status := .failed, error := some jwtFormatErr } (by decide)

/-! ## C3 — holder precedence: corrected (no confirmation-key fallback) -/

/-- A payload identifying its holder only through a confirmation key. -/
def payloadCnf : Json :=
  Json.obj [("cnf".data, Json.obj [("kid".data, Json.str "did:example:key".data)])]

/-- **C3, counterexample.** The claim's precedence ends with "else a nested
confirmation-key identifier"; the code computes
`payload.get("iss") or payload.get("sub")` and never looks at `cnf`: on a
payload carrying only `cnf.kid`, the spec-worded precedence produces the key
identifier while the code produces null. -/
theorem c3_counterexample :
    resolveHolder payloadCnf ≠ .ok (holderSpecPrecedence payloadCnf) ∧
    resolveHolder payloadCnf = .ok none ∧
    holderSpecPrecedence payloadCnf = some (Json.str "did:example:key".data) := by decide

/-- **C3, amended.** On a dictionary payload the holder is the issuer claim
when it is present and truthy; otherwise it is whatever `get("sub")` yields
(the subject claim when present, else null).  There is no confirmation-key
fallback: with both claims absent the holder is null whatever else the payload
contains. -/
theorem c3_holder_resolution (kvs : List (Str × Json)) :
    (∀ v, lookupKV kvs "iss".data = some v → v.truthy = true →
      resolveHolder (.obj kvs) = .ok (some v)) ∧
    ((∀ v, lookupKV kvs "iss".data = some v → v.truthy = false) →
      resolveHolder (.obj kvs) = .ok (lookupKV kvs "sub".data)) ∧
    (lookupKV kvs "iss".data = none → lookupKV kvs "sub".data = none →
      resolveHolder (.obj kvs) = .ok none) := by
  have hbase : resolveHolder (.obj kvs)
      = .ok (pyOr (lookupKV kvs "iss".data) (lookupKV kvs "sub".data)) := rfl
  refine ⟨?_, ?_, ?_⟩
  · intro v hv htruthy
    rw [hbase, hv]
    simp [pyOr, pyTruthy, htruthy]
  · intro hfalsy
    rw [hbase]
    rcases hv : lookupKV kvs "iss".data with _ | v
    · simp [pyOr, pyTruthy]
    · simp [pyOr, pyTruthy, hfalsy v hv]
  · intro h1 h2
    rw [hbase, h1, h2]
    rfl

theorem c3_holder_resolution_witness :
    resolveHolder (Json.obj [("iss".data, Json.str ['x'])])
      = .ok (some (Json.str ['x'])) :=
  (c3_holder_resolution [("iss".data, Json.str ['x'])]).1
    (Json.str ['x']) (by decide) (by decide)

/-! ## C5 — valid token completes the session: corrected -/

/-- Credential extraction cannot raise when the payload is a dictionary whose
`vp` member, if any, is itself a dictionary. -/
theorem extract_ok_of_vp_obj (kvs : List (Str × Json))
    (hvp : ∀ v, lookupKV kvs "vp".data = some v → ∃ ms, v = .obj ms) :
    ∃ cs, extract_credentials_from_vp (.obj kvs) = .ok cs := by
  unfold extract_credentials_from_vp
  rcases hv : lookupKV kvs "vp".data with _ | v
  · exact ⟨[], by simp [pyContains, hv, Bind.bind, Except.bind, pure, Except.pure]⟩
  · obtain ⟨ms, rfl⟩ := hvp v hv
    rcases hvc : lookupKV ms "verifiableCredential".data with _ | vcs
    · exact ⟨[], by simp [pyContains, pySubscript, hv, hvc,
        Bind.bind, Except.bind, pure, Except.pure]⟩
    · cases vcs with
      | arr items =>
        exact ⟨items.map credOfVc, by simp [pyContains, pySubscript, hv, hvc,
          Bind.bind, Except.bind, pure, Except.pure]⟩
      | _ =>
        exact ⟨[], by simp [pyContains, pySubscript, hv, hvc,
          Bind.bind, Except.bind, pure, Except.pure]⟩

/-- The whole `try` block succeeds on a parseable token whose payload is a
dictionary with a dictionary (or absent) `vp` member, producing the holder
`payload.get("iss") or payload.get("sub")`. -/
theorem callbackOutcome_ok (t : Str) (hJ pJ : Json) (sig : Str)
    (kvs : List (Str × Json))
    (hparse : parse_jwt_without_verification (some t) = .ok ⟨hJ, pJ, sig⟩)
    (hobj : pJ = .obj kvs)
    (hvp : ∀ v, lookupKV kvs "vp".data = some v → ∃ ms, v = .obj ms) :
    ∃ cs, callbackOutcome (some t)
      = .ok ⟨hJ, pJ, cs, pyOr (lookupKV kvs "iss".data) (lookupKV kvs "sub".data)⟩ := by
  subst hobj
  obtain ⟨cs, hcs⟩ := extract_ok_of_vp_obj kvs hvp
  refine ⟨cs, ?_⟩
  unfold callbackOutcome
  rw [hparse]
  simp [hcs, resolveHolder, pyDictGet, Bind.bind, Except.bind, pure, Except.pure]

/-- On an `Optional` pair, `a or b` is non-`None` exactly when `a` is present
and truthy or `b` is present. -/
theorem pyOr_ne_none (a b : Option Json)
    (h : pyTruthy a = true ∨ b.isSome) : pyOr a b ≠ none := by
  unfold pyOr
  by_cases ht : pyTruthy a = true
  · rcases a with _ | v
    · simp [pyTruthy] at ht
    · simp [ht]
  · rw [if_neg ht]
    exact Option.isSome_iff_ne_none.mp (h.resolve_left ht)

/-- A payload (three-segment token) whose `vp` member is not a container:
syntactically valid, but extraction raises. -/
def c5Payload : Json :=
  Json.obj [("vp".data, Json.num 5), ("iss".data, Json.str "did:example:123".data)]

/-- The counterexample token: fully valid three-segment syntax around
`c5Payload`. -/
def c5Token : Str := mkToken true true (Json.obj []) c5Payload "sig".data

/-- **C5, counterexample.** The claim promises `completed` for every
syntactically valid three-segment token with matching state.  This token is
valid (it parses), the session is pending and the state matches, yet the
`verifiableCredential` walk raises a `TypeError` on the number-valued `vp`
member, the session ends `failed`, and the handler answers 400. -/
theorem c5_counterexample :
    parse_jwt_without_verification (some c5Token)
      = .ok ⟨Json.obj [], c5Payload, "sig".data⟩ ∧
    sessPending.status = .pending ∧
    (storeGet (receive_presentation [(['r'], sessPending)] ['r']
        ⟨some c5Token, some ['S'], none⟩ ['T']).2 ['r']).map Session.status
      = some .failed ∧
    (receive_presentation [(['r'], sessPending)] ['r']
        ⟨some c5Token, some ['S'], none⟩ ['T']).1 ≠ .success := by decide

/-- **C5, amended.** For a pending session, a callback with matching state and
a parseable three-segment token whose payload is a dictionary with a
dictionary (or absent) `vp` member stores status `completed`; the stored
holder is non-null whenever the payload's issuer claim is present and truthy
or its subject claim is present. -/
theorem c5_valid_token_completes (sessions : Store) (id : Str) (s : Session)
    (body : CallbackBody) (now : Str) (t : Str) (hJ pJ : Json) (sig : Str)
    (kvs : List (Str × Json))
    (hget : storeGet sessions id = some s) (hpend : s.status = .pending)
    (hstate : body.state = some s.state) (htok : body.vp_token = some t)
    (hparse : parse_jwt_without_verification (some t) = .ok ⟨hJ, pJ, sig⟩)
    (hobj : pJ = .obj kvs)
    (hvp : ∀ v, lookupKV kvs "vp".data = some v → ∃ ms, v = .obj ms) :
    ∃ cs, receive_presentation sessions id body now
      = (.success, storeSet sessions id
          { s with status := .completed, vp_token := some t,
                   decoded := some ⟨hJ, pJ, cs,
                     pyOr (lookupKV kvs "iss".data) (lookupKV kvs "sub".data)⟩,
                   completed_at := some now }) ∧
      (pyTruthy (lookupKV kvs "iss".data) = true ∨ (lookupKV kvs "sub".data).isSome →
        pyOr (lookupKV kvs "iss".data) (lookupKV kvs "sub".data) ≠ none) := by
  obtain ⟨cs, hcs⟩ := callbackOutcome_ok t hJ pJ sig kvs hparse hobj hvp
  refine ⟨cs, ?_, pyOr_ne_none _ _⟩
  rw [receive_found sessions id s body now hget hstate, htok, hcs]

/-- The member list of the C5 witness payload: issuer present, `vp` a
dictionary holding one opaque string credential. -/
def c5GoodKvs : List (Str × Json) :=
  [("iss".data, Json.str "did:example:123".data),
   ("vp".data, Json.obj [("verifiableCredential".data,
      Json.arr [Json.str "opaque".data])])]

/-- A well-behaved payload for the C5 witness. -/
def c5GoodPayload : Json := Json.obj c5GoodKvs

/-- The C5 witness token. -/
def c5GoodToken : Str := mkToken false false (Json.obj []) c5GoodPayload "sg".data

theorem c5_valid_token_completes_witness :
    ∃ cs, receive_presentation [(['r'], sessPending)] ['r']
        ⟨some c5GoodToken, some ['S'], none⟩ ['T']
      = (.success, storeSet [(['r'], sessPending)] ['r']
          { sessPending with
              status := .completed
              vp_token := some c5GoodToken
              decoded := some ⟨Json.obj [], c5GoodPayload, cs,
                pyOr (lookupKV c5GoodKvs "iss".data) (lookupKV c5GoodKvs "sub".data)⟩
              completed_at := some ['T'] }) ∧
      (pyTruthy (lookupKV c5GoodKvs "iss".data) = true ∨
          (lookupKV c5GoodKvs "sub".data).isSome →
        pyOr (lookupKV c5GoodKvs "iss".data) (lookupKV c5GoodKvs "sub".data) ≠ none) :=
  c5_valid_token_completes [(['r'], sessPending)] ['r'] sessPending
    ⟨some c5GoodToken, some ['S'], none⟩ ['T'] c5GoodToken
    (Json.obj []) c5GoodPayload "sg".data c5GoodKvs
    rfl rfl rfl rfl (by decide) rfl
    (by
      intro v hv
      have hv2 : lookupKV c5GoodKvs "vp".data
          = some (Json.obj [("verifiableCredential".data,
              Json.arr [Json.str "opaque".data])]) := by decide
      rw [hv2] at hv
      cases hv
      exact ⟨_, rfl⟩)

/-! ## C9 — the status read is idempotent and writes nothing -/

/-- **C9.** For a session in a terminal status, the status operation returns
the store unchanged (no session field is written), and an immediately repeated
status call returns exactly the same response — same status, holder and error
data. -/
theorem c9_status_idempotent (sessions : Store) (id : Str) (s : Session)
    (hget : storeGet sessions id = some s)
    (hterm : s.status = .completed ∨ s.status = .failed ∨ s.status = .error) :
    (get_presentation_status sessions id).2 = sessions ∧
    get_presentation_status (get_presentation_status sessions id).2 id
      = get_presentation_status sessions id := by
  have hsnd : (get_presentation_status sessions id).2 = sessions := by
    unfold get_presentation_status
    rw [hget]
  exact ⟨hsnd, by rw [hsnd]⟩

theorem c9_status_idempotent_witness :
    (get_presentation_status [(['r'], sessCompleted)] ['r']).2 = [(['r'], sessCompleted)] ∧
    get_presentation_status (get_presentation_status [(['r'], sessCompleted)] ['r']).2 ['r']
      = get_presentation_status [(['r'], sessCompleted)] ['r'] :=
  c9_status_idempotent [(['r'], sessCompleted)] ['r'] sessCompleted
    (by decide) (Or.inl (by decide))

/-! ## C10 — the request view leaks state and nonce verbatim -/

/-- **C10.** For any existing session, the GET request-retrieval operation
returns the stored `state` and `nonce` verbatim; in particular a body carrying
the returned state passes the callback's state check — the callback can never
answer `invalidState` to it. -/
theorem c10_request_leaks_state (sessions : Store) (id : Str) (s : Session)
    (hget : storeGet sessions id = some s) :
    ∃ resp, get_presentation_request sessions id = some resp ∧
      resp.state = s.state ∧ resp.nonce = s.nonce ∧
      ∀ body now, body.state = some resp.state →
        (receive_presentation sessions id body now).1 ≠ .invalidState := by
  refine ⟨⟨id, s.purpose, s.purpose, joinBar s.requested_credentials, s.nonce, s.state⟩,
    ?_, rfl, rfl, ?_⟩
  · unfold get_presentation_request
    rw [hget]
  · intro body now hstate
    rw [receive_found sessions id s body now hget hstate]
    rcases callbackOutcome body.vp_token with d | d <;> simp

theorem c10_request_leaks_state_witness :
    ∃ resp, get_presentation_request [(['r'], sessPending)] ['r'] = some resp ∧
      resp.state = sessPending.state ∧ resp.nonce = sessPending.nonce ∧
      ∀ body now, body.state = some resp.state →
        (receive_presentation [(['r'], sessPending)] ['r'] body now).1 ≠ .invalidState :=
  c10_request_leaks_state [(['r'], sessPending)] ['r'] sessPending (by decide)

/-! ## Round-trip development, layer 1: base64url -/

theorem b64Val_b64Char : ∀ n, n < 64 → b64Val (b64Char n) = some n := by decide

theorem b64Char_ne_pad : ∀ n, n < 64 → b64Char n ≠ '=' := by decide

theorem urlBack_urlFwd : ∀ n, n < 64 → urlBack (urlFwd (b64Char n)) = b64Char n := by decide

theorem urlFwd_b64Char_ne_dot : ∀ n, n < 64 → urlFwd (b64Char n) ≠ '.' := by decide

theorem b64encodeCore_mem : ∀ bs : Bytes, (∀ b ∈ bs, b < 256) →
    ∀ c ∈ (b64encodeCore bs).1, ∃ n, n < 64 ∧ c = b64Char n
  | [], _ => by simp [b64encodeCore]
  | [b1], h => by
    have hb1 : b1 < 256 := h b1 (by simp)
    simp only [b64encodeCore, List.mem_cons, List.not_mem_nil, or_false]
    rintro c (rfl | rfl)
    · exact ⟨b1 / 4, by omega, rfl⟩
    · exact ⟨b1 % 4 * 16, by omega, rfl⟩
  | [b1, b2], h => by
    have hb1 : b1 < 256 := h b1 (by simp)
    have hb2 : b2 < 256 := h b2 (by simp)
    simp only [b64encodeCore, List.mem_cons, List.not_mem_nil, or_false]
    rintro c (rfl | rfl | rfl)
    · exact ⟨b1 / 4, by omega, rfl⟩
    · exact ⟨b1 % 4 * 16 + b2 / 16, by omega, rfl⟩
    · exact ⟨b2 % 16 * 4, by omega, rfl⟩
  | b1 :: b2 :: b3 :: (rest1 :: rest2), h => by
    have hb1 : b1 < 256 := h b1 (by simp)
    have hb2 : b2 < 256 := h b2 (by simp)
    have hb3 : b3 < 256 := h b3 (by simp)
    have ih := b64encodeCore_mem (rest1 :: rest2)
      (fun b hb => h b (by simp only [List.mem_cons] at hb ⊢; tauto))
    simp only [b64encodeCore, List.mem_cons]
    rintro c (rfl | rfl | rfl | rfl | hc)
    · exact ⟨b1 / 4, by omega, rfl⟩
    · exact ⟨b1 % 4 * 16 + b2 / 16, by omega, rfl⟩
    · exact ⟨b2 % 16 * 4 + b3 / 64, by omega, rfl⟩
    · exact ⟨b3 % 64, by omega, rfl⟩
    · exact ih c hc
  | [b1, b2, b3], h => by
    have hb1 : b1 < 256 := h b1 (by simp)
    have hb2 : b2 < 256 := h b2 (by simp)
    have hb3 : b3 < 256 := h b3 (by simp)
    simp only [b64encodeCore, List.mem_cons, List.not_mem_nil, or_false]
    rintro c (rfl | rfl | rfl | rfl)
    · exact ⟨b1 / 4, by omega, rfl⟩
    · exact ⟨b1 % 4 * 16 + b2 / 16, by omega, rfl⟩
    · exact ⟨b2 % 16 * 4 + b3 / 64, by omega, rfl⟩
    · exact ⟨b3 % 64, by omega, rfl⟩

theorem b64encodeCore_padding : ∀ bs : Bytes,
    ((b64encodeCore bs).1.length + (b64encodeCore bs).2) % 4 = 0 ∧ (b64encodeCore bs).2 ≤ 2
  | [] => by simp [b64encodeCore]
  | [b1] => by simp [b64encodeCore]
  | [b1, b2] => by simp [b64encodeCore]
  | b1 :: b2 :: b3 :: (rest1 :: rest2) => by
    have ih := b64encodeCore_padding (rest1 :: rest2)
    simp only [b64encodeCore, List.length_cons]
    omega
  | [b1, b2, b3] => by simp [b64encodeCore, b64decode]

theorem b64decode_core : ∀ bs : Bytes, (∀ b ∈ bs, b < 256) →
    b64decode ((b64encodeCore bs).1 ++ List.replicate (b64encodeCore bs).2 '=') = some bs
  | [], _ => by simp [b64encodeCore, b64decode]
  | [b1], h => by
    have hb1 : b1 < 256 := h b1 (by simp)
    have h1 := b64Val_b64Char (b1 / 4) (by omega)
    have h2 := b64Val_b64Char (b1 % 4 * 16) (by omega)
    have hval : b1 / 4 * 4 + b1 % 4 * 16 / 16 = b1 := by omega
    simp [b64encodeCore, b64decode, List.replicate, h1, h2, hval]
    omega
  | [b1, b2], h => by
    have hb1 : b1 < 256 := h b1 (by simp)
    have hb2 : b2 < 256 := h b2 (by simp)
    have h1 := b64Val_b64Char (b1 / 4) (by omega)
    have h2 := b64Val_b64Char (b1 % 4 * 16 + b2 / 16) (by omega)
    have h3 := b64Val_b64Char (b2 % 16 * 4) (by omega)
    have hne := b64Char_ne_pad (b2 % 16 * 4) (by omega)
    have hval1 : b1 / 4 * 4 + (b1 % 4 * 16 + b2 / 16) / 16 = b1 := by omega
    have hval2 : (b1 % 4 * 16 + b2 / 16) % 16 * 16 + b2 % 16 * 4 / 4 = b2 := by omega
    simp [b64encodeCore, b64decode, List.replicate, h1, h2, h3, hne, hval1, hval2]
    omega
  | b1 :: b2 :: b3 :: (rest1 :: rest2), h => by
    have hb1 : b1 < 256 := h b1 (by simp)
    have hb2 : b2 < 256 := h b2 (by simp)
    have hb3 : b3 < 256 := h b3 (by simp)
    have ih := b64decode_core (rest1 :: rest2)
      (fun b hb => h b (by simp only [List.mem_cons] at hb ⊢; tauto))
    have h1 := b64Val_b64Char (b1 / 4) (by omega)
    have h2 := b64Val_b64Char (b1 % 4 * 16 + b2 / 16) (by omega)
    have h3 := b64Val_b64Char (b2 % 16 * 4 + b3 / 64) (by omega)
    have h4 := b64Val_b64Char (b3 % 64) (by omega)
    have hne3 := b64Char_ne_pad (b2 % 16 * 4 + b3 / 64) (by omega)
    have hne4 := b64Char_ne_pad (b3 % 64) (by omega)
    have hval1 : b1 / 4 * 4 + (b1 % 4 * 16 + b2 / 16) / 16 = b1 := by omega
    have hval2 : (b1 % 4 * 16 + b2 / 16) % 16 * 16 + (b2 % 16 * 4 + b3 / 64) / 4 = b2 := by
      omega
    have hval3 : (b2 % 16 * 4 + b3 / 64) % 4 * 64 + b3 % 64 = b3 := by omega
    simp [b64encodeCore, b64decode, h1, h2, h3, h4, hne3, hne4, ih, hval1, hval2, hval3]
  | [b1, b2, b3], h => by
    have hb1 : b1 < 256 := h b1 (by simp)
    have hb2 : b2 < 256 := h b2 (by simp)
    have hb3 : b3 < 256 := h b3 (by simp)
    have h1 := b64Val_b64Char (b1 / 4) (by omega)
    have h2 := b64Val_b64Char (b1 % 4 * 16 + b2 / 16) (by omega)
    have h3 := b64Val_b64Char (b2 % 16 * 4 + b3 / 64) (by omega)
    have h4 := b64Val_b64Char (b3 % 64) (by omega)
    have hne3 := b64Char_ne_pad (b2 % 16 * 4 + b3 / 64) (by omega)
    have hne4 := b64Char_ne_pad (b3 % 64) (by omega)
    have hval1 : b1 / 4 * 4 + (b1 % 4 * 16 + b2 / 16) / 16 = b1 := by omega
    have hval2 : (b1 % 4 * 16 + b2 / 16) % 16 * 16 + (b2 % 16 * 4 + b3 / 64) / 4 = b2 := by
      omega
    have hval3 : (b2 % 16 * 4 + b3 / 64) % 4 * 64 + b3 % 64 = b3 := by omega
    simp [b64encodeCore, b64decode, h1, h2, h3, h4, hne3, hne4, hval1, hval2, hval3]

theorem map_urlBack_urlFwd (s : Str) (h : ∀ c ∈ s, ∃ n, n < 64 ∧ c = b64Char n) :
    (s.map urlFwd).map urlBack = s := by
  induction s with
  | nil => rfl
  | cons c cs ih =>
    obtain ⟨n, hn, rfl⟩ := h c (by simp)
    simp only [List.map_cons, urlBack_urlFwd n hn, List.cons.injEq, true_and]
    exact ih (fun x hx => h x (by simp [hx]))

/-- `decode_base64url` written out without its `let` bindings. -/
theorem decode_base64url_eq (data : Str) :
    decode_base64url data =
      b64decode (if 4 - (data.map urlBack).length % 4 ≠ 4
        then data.map urlBack ++ List.replicate (4 - (data.map urlBack).length % 4) '='
        else data.map urlBack) := rfl

theorem decode_base64url_encode (padded : Bool) (bs : Bytes)
    (h : ∀ b ∈ bs, b < 256) :
    decode_base64url (b64urlEncode padded bs) = some bs := by
  have hmem := b64encodeCore_mem bs h
  have hmap := map_urlBack_urlFwd (b64encodeCore bs).1 hmem
  have hpad := b64encodeCore_padding bs
  have hchunk := b64decode_core bs h
  have hrep : urlBack '=' = '=' := by decide
  cases padded with
  | true =>
    have henc : b64urlEncode true bs
        = (b64encodeCore bs).1.map urlFwd ++ List.replicate (b64encodeCore bs).2 '=' := by
      simp [b64urlEncode]
    rw [henc, decode_base64url_eq]
    rw [List.map_append, hmap, List.map_replicate, hrep, List.length_append,
      List.length_replicate, hpad.1]
    simpa using hchunk
  | false =>
    have henc : b64urlEncode false bs = (b64encodeCore bs).1.map urlFwd := by
      simp [b64urlEncode]
    rw [henc, decode_base64url_eq, hmap]
    rcases hp : (b64encodeCore bs).2 with _ | _ | _ | k
    · have hlen : (b64encodeCore bs).1.length % 4 = 0 := by omega
      rw [hlen]
      rw [hp] at hchunk
      simpa using hchunk
    · have hlen : (b64encodeCore bs).1.length % 4 = 3 := by omega
      rw [hlen]
      rw [hp] at hchunk
      simpa [List.replicate] using hchunk
    · have hlen : (b64encodeCore bs).1.length % 4 = 2 := by omega
      rw [hlen]
      rw [hp] at hchunk
      simpa [List.replicate] using hchunk
    · omega

theorem b64urlEncode_no_dot (padded : Bool) (bs : Bytes)
    (h : ∀ b ∈ bs, b < 256) : '.' ∉ b64urlEncode padded bs := by
  unfold b64urlEncode
  intro hmem
  rcases List.mem_append.mp hmem with hm | hm
  · obtain ⟨c, hc, hce⟩ := List.mem_map.mp hm
    obtain ⟨n, hn, rfl⟩ := b64encodeCore_mem bs h c hc
    exact urlFwd_b64Char_ne_dot n hn hce
  · rcases padded with _ | _
    · simp at hm
    · have := List.eq_of_mem_replicate hm
      simp at this

/-! ## Round-trip development, layer 2: UTF-8 -/

theorem utf8EncodeChar_lt (c : Char) : ∀ b ∈ utf8EncodeChar c, b < 256 := by
  have hv : c.toNat < 0xD800 ∨ (0xDFFF < c.toNat ∧ c.toNat < 0x110000) := c.valid
  by_cases h1 : c.toNat < 0x80
  · have henc : utf8EncodeChar c = [c.toNat] := by
      unfold utf8EncodeChar; simp only [if_pos h1]
    rw [henc]; intro b hb; simp only [List.mem_singleton] at hb; omega
  · by_cases h2 : c.toNat < 0x800
    · have henc : utf8EncodeChar c = [0xC0 + c.toNat / 64, 0x80 + c.toNat % 64] := by
        unfold utf8EncodeChar; simp only [if_neg h1, if_pos h2]
      rw [henc]; intro b hb
      simp only [List.mem_cons, List.not_mem_nil, or_false] at hb
      rcases hb with rfl | rfl <;> omega
    · by_cases h3 : c.toNat < 0x10000
      · have henc : utf8EncodeChar c
            = [0xE0 + c.toNat / 4096, 0x80 + c.toNat / 64 % 64, 0x80 + c.toNat % 64] := by
          unfold utf8EncodeChar; simp only [if_neg h1, if_neg h2, if_pos h3]
        rw [henc]; intro b hb
        simp only [List.mem_cons, List.not_mem_nil, or_false] at hb
        rcases hb with rfl | rfl | rfl <;> omega
      · have henc : utf8EncodeChar c
            = [0xF0 + c.toNat / 262144, 0x80 + c.toNat / 4096 % 64,
               0x80 + c.toNat / 64 % 64, 0x80 + c.toNat % 64] := by
          unfold utf8EncodeChar; simp only [if_neg h1, if_neg h2, if_neg h3]
        rw [henc]; intro b hb
        simp only [List.mem_cons, List.not_mem_nil, or_false] at hb
        rcases hb with rfl | rfl | rfl | rfl <;> omega

theorem utf8Encode_lt (s : Str) : ∀ b ∈ utf8Encode s, b < 256 := by
  induction s with
  | nil => simp [utf8Encode]
  | cons c cs ih =>
    intro b hb
    rcases List.mem_append.mp hb with hm | hm
    · exact utf8EncodeChar_lt c b hm
    · exact ih b hm

theorem utf8DecodeAux_enc (c : Char) (rest : Bytes) (fuel : Nat) :
    utf8DecodeAux (fuel + 1) (utf8EncodeChar c ++ rest)
      = (utf8DecodeAux fuel rest).map (c :: ·) := by
  have hv : c.toNat < 0xD800 ∨ (0xDFFF < c.toNat ∧ c.toNat < 0x110000) := c.valid
  by_cases h1 : c.toNat < 0x80
  · have henc : utf8EncodeChar c = [c.toNat] := by
      unfold utf8EncodeChar; simp only [if_pos h1]
    rw [henc, List.cons_append, List.nil_append, utf8DecodeAux]
    unfold utf8DecodeOne
    simp only [if_pos h1, Char.ofNat_toNat]
  · by_cases h2 : c.toNat < 0x800
    · have henc : utf8EncodeChar c = [0xC0 + c.toNat / 64, 0x80 + c.toNat % 64] := by
        unfold utf8EncodeChar; simp only [if_neg h1, if_pos h2]
      have hnot : ¬(0xC0 + c.toNat / 64 < 0x80) := by omega
      have hb : 0xC2 ≤ 0xC0 + c.toNat / 64 ∧ 0xC0 + c.toNat / 64 < 0xE0 := by omega
      have hb2 : 0x80 ≤ 0x80 + c.toNat % 64 ∧ 0x80 + c.toNat % 64 < 0xC0 := by omega
      have hval : (0xC0 + c.toNat / 64 - 0xC0) * 64 + (0x80 + c.toNat % 64 - 0x80)
          = c.toNat := by omega
      rw [henc, List.cons_append, List.cons_append, List.nil_append, utf8DecodeAux]
      unfold utf8DecodeOne
      simp only [if_neg hnot, if_pos hb, if_pos hb2, hval, Char.ofNat_toNat]
    · by_cases h3 : c.toNat < 0x10000
      · have henc : utf8EncodeChar c
            = [0xE0 + c.toNat / 4096, 0x80 + c.toNat / 64 % 64, 0x80 + c.toNat % 64] := by
          unfold utf8EncodeChar; simp only [if_neg h1, if_neg h2, if_pos h3]
        have hnot1 : ¬(0xE0 + c.toNat / 4096 < 0x80) := by omega
        have hnot2 : ¬(0xC2 ≤ 0xE0 + c.toNat / 4096 ∧ 0xE0 + c.toNat / 4096 < 0xE0) := by
          omega
        have hb : 0xE0 ≤ 0xE0 + c.toNat / 4096 ∧ 0xE0 + c.toNat / 4096 < 0xF0 := by omega
        have hb2 : (0x80 ≤ 0x80 + c.toNat / 64 % 64 ∧ 0x80 + c.toNat / 64 % 64 < 0xC0) ∧
            (0x80 ≤ 0x80 + c.toNat % 64 ∧ 0x80 + c.toNat % 64 < 0xC0) := by omega
        have hval : (0xE0 + c.toNat / 4096 - 0xE0) * 4096 +
            ((0x80 + c.toNat / 64 % 64 - 0x80) * 64 + (0x80 + c.toNat % 64 - 0x80))
            = c.toNat := by omega
        have hrange : 0x800 ≤ c.toNat ∧ ¬(0xD800 ≤ c.toNat ∧ c.toNat < 0xE000) := by
          omega
        rw [henc, List.cons_append, List.cons_append, List.cons_append, List.nil_append,
          utf8DecodeAux]
        unfold utf8DecodeOne
        simp only [if_neg hnot1, if_neg hnot2, if_pos hb, if_pos hb2, hval,
          if_pos hrange, Char.ofNat_toNat]
      · have henc : utf8EncodeChar c
            = [0xF0 + c.toNat / 262144, 0x80 + c.toNat / 4096 % 64,
               0x80 + c.toNat / 64 % 64, 0x80 + c.toNat % 64] := by
          unfold utf8EncodeChar; simp only [if_neg h1, if_neg h2, if_neg h3]
        have hnot1 : ¬(0xF0 + c.toNat / 262144 < 0x80) := by omega
        have hnot2 : ¬(0xC2 ≤ 0xF0 + c.toNat / 262144 ∧ 0xF0 + c.toNat / 262144 < 0xE0) := by
          omega
        have hnot3 : ¬(0xE0 ≤ 0xF0 + c.toNat / 262144 ∧ 0xF0 + c.toNat / 262144 < 0xF0) := by
          omega
        have hb : 0xF0 ≤ 0xF0 + c.toNat / 262144 ∧ 0xF0 + c.toNat / 262144 < 0xF5 := by
          omega
        have hb2 : (0x80 ≤ 0x80 + c.toNat / 4096 % 64 ∧ 0x80 + c.toNat / 4096 % 64 < 0xC0) ∧
            ((0x80 ≤ 0x80 + c.toNat / 64 % 64 ∧ 0x80 + c.toNat / 64 % 64 < 0xC0) ∧
             (0x80 ≤ 0x80 + c.toNat % 64 ∧ 0x80 + c.toNat % 64 < 0xC0)) := by omega
        have hval : (0xF0 + c.toNat / 262144 - 0xF0) * 262144 +
            ((0x80 + c.toNat / 4096 % 64 - 0x80) * 4096 +
             ((0x80 + c.toNat / 64 % 64 - 0x80) * 64 + (0x80 + c.toNat % 64 - 0x80)))
            = c.toNat := by omega
        have hrange : 0x10000 ≤ c.toNat ∧ c.toNat < 0x110000 := by omega
        rw [henc, List.cons_append, List.cons_append, List.cons_append, List.cons_append,
          List.nil_append, utf8DecodeAux]
        unfold utf8DecodeOne
        simp only [if_neg hnot1, if_neg hnot2, if_neg hnot3, if_pos hb, if_pos hb2, hval,
          if_pos hrange, Char.ofNat_toNat]

theorem utf8Encode_length_ge (s : Str) : s.length ≤ (utf8Encode s).length := by
  induction s with
  | nil => simp [utf8Encode]
  | cons c cs ih =>
    have hne : 1 ≤ (utf8EncodeChar c).length := by
      unfold utf8EncodeChar
      dsimp only
      split
      · simp
      · split
        · simp
        · split <;> simp
    have : utf8Encode (c :: cs) = utf8EncodeChar c ++ utf8Encode cs := rfl
    rw [this, List.length_append, List.length_cons]
    omega

theorem utf8_rt_aux : ∀ (s : Str) (fuel : Nat), s.length < fuel →
    utf8DecodeAux fuel (utf8Encode s) = some s := by
  intro s
  induction s with
  | nil =>
    intro fuel hf
    rcases fuel with _ | f
    · omega
    · rfl
  | cons c cs ih =>
    intro fuel hf
    rcases fuel with _ | f
    · omega
    · have : utf8Encode (c :: cs) = utf8EncodeChar c ++ utf8Encode cs := rfl
      rw [this, utf8DecodeAux_enc, ih f (by simpa using Nat.lt_of_succ_lt_succ hf)]
      rfl

theorem utf8_rt (s : Str) : utf8Decode (utf8Encode s) = some s := by
  unfold utf8Decode
  refine utf8_rt_aux s _ ?_
  have := utf8Encode_length_ge s
  omega

/-! ## Round-trip development, layer 3: the JSON codec

### Numbers -/

theorem jIsDigit_digitChar : ∀ k, k < 10 → jIsDigit (digitChar k) = true := by decide

theorem digitChar_val : ∀ k, k < 10 → (digitChar k).toNat - 48 = k := by decide

theorem digitChar_ne_zero : ∀ k, 1 ≤ k → k < 10 → digitChar k ≠ '0' := by decide

/-- The characters a digit can never be (branch dispatch in the parser). -/
theorem jIsDigit_ne (c : Char) (h : jIsDigit c = true) :
    c ≠ '-' ∧ c ≠ 'n' ∧ c ≠ 'f' ∧ c ≠ 't' ∧ c ≠ '[' ∧ c ≠ '"' ∧ c ≠ ']' ∧
    c ≠ obraceC ∧ c ≠ cbraceC ∧ c ≠ ',' ∧ c ≠ ':' ∧ jIsWs c = false := by
  simp only [jIsDigit, decide_eq_true_eq] at h
  have hchar : ∀ d : Char, c.toNat ≠ d.toNat → c ≠ d := fun d hne he => hne (he ▸ rfl)
  refine ⟨hchar _ (by simp; omega), hchar _ (by simp; omega), hchar _ (by simp; omega),
    hchar _ (by simp; omega), hchar _ (by simp; omega), hchar _ (by simp; omega),
    hchar _ (by simp; omega), hchar _ (by simp [obraceC]; omega),
    hchar _ (by simp [cbraceC]; omega), hchar _ (by simp; omega),
    hchar _ (by simp; omega), ?_⟩
  simp only [jIsWs, decide_eq_true_eq, Bool.decide_or]
  have h1 : c ≠ ' ' := hchar _ (by simp; omega)
  have h2 : c ≠ '\t' := hchar _ (by simp; omega)
  have h3 : c ≠ '\n' := hchar _ (by simp; omega)
  have h4 : c ≠ '\r' := hchar _ (by simp; omega)
  simp [h1, h2, h3, h4]

theorem natCharsAux_digits : ∀ fuel n, n < fuel →
    ∀ c ∈ natCharsAux fuel n, jIsDigit c = true
  | 0, n, h => by omega
  | fuel + 1, n, h => by
    unfold natCharsAux
    by_cases h10 : n < 10
    · simp only [if_pos h10]
      intro c hc
      simp only [List.mem_singleton] at hc
      subst hc
      exact jIsDigit_digitChar n h10
    · simp only [if_neg h10]
      intro c hc
      rcases List.mem_append.mp hc with hm | hm
      · exact natCharsAux_digits fuel (n / 10) (by omega) c hm
      · simp only [List.mem_singleton] at hm
        subst hm
        exact jIsDigit_digitChar (n % 10) (by omega)

theorem natCharsAux_ne_nil : ∀ fuel n, n < fuel → natCharsAux fuel n ≠ []
  | 0, n, h => by omega
  | fuel + 1, n, h => by
    unfold natCharsAux
    by_cases h10 : n < 10
    · simp [if_pos h10]
    · simp only [if_neg h10]
      simp [natCharsAux_ne_nil fuel (n / 10) (by omega)]

theorem natCharsAux_val : ∀ fuel n, n < fuel → digitsVal (natCharsAux fuel n) = n
  | 0, n, h => by omega
  | fuel + 1, n, h => by
    unfold natCharsAux
    by_cases h10 : n < 10
    · simp only [if_pos h10, digitsVal, List.foldl_cons, List.foldl_nil]
      rw [digitChar_val n h10]
      omega
    · simp only [if_neg h10, digitsVal, List.foldl_append, List.foldl_cons, List.foldl_nil]
      have ih := natCharsAux_val fuel (n / 10) (by omega)
      unfold digitsVal at ih
      rw [ih, digitChar_val (n % 10) (by omega)]
      omega

theorem natCharsAux_head_ne_zero : ∀ fuel n, n < fuel → 1 ≤ n →
    ∀ ds, natCharsAux fuel n ≠ '0' :: ds
  | 0, n, h, _, _ => by omega
  | fuel + 1, n, h, h1, ds => by
    unfold natCharsAux
    by_cases h10 : n < 10
    · simp only [if_pos h10]
      intro hc
      exact digitChar_ne_zero n h1 h10 (List.cons.inj hc).1
    · simp only [if_neg h10]
      rcases hrec : natCharsAux fuel (n / 10) with _ | ⟨d, dtail⟩
      · exact absurd hrec (natCharsAux_ne_nil fuel (n / 10) (by omega))
      · intro hc
        simp only [List.cons_append, List.cons.injEq] at hc
        exact natCharsAux_head_ne_zero fuel (n / 10) (by omega) (by omega) dtail
          (by rw [hrec, hc.1])

theorem jTakeDigits_stop (s : Str) (h : ∀ c, s.head? = some c → jIsDigit c = false) :
    jTakeDigits s = ([], s) := by
  cases s with
  | nil => rfl
  | cons c cs =>
    unfold jTakeDigits
    rw [if_neg (by simp [h c rfl])]

theorem jTakeDigits_run : ∀ (ds rest : Str), (∀ c ∈ ds, jIsDigit c = true) →
    jTakeDigits rest = ([], rest) → jTakeDigits (ds ++ rest) = (ds, rest) := by
  intro ds
  induction ds with
  | nil => intro rest _ hrest; simpa using hrest
  | cons c ct ih =>
    intro rest hds hrest
    have hc : jIsDigit c = true := hds c (by simp)
    have ht := ih rest (fun x hx => hds x (by simp [hx])) hrest
    rw [List.cons_append]
    unfold jTakeDigits
    rw [if_pos hc, ht]

theorem jParseNat_natChars (n : Nat) (rest : Str)
    (hrest : ∀ c, rest.head? = some c → jIsDigit c = false) :
    jParseNat (natChars n ++ rest) = some (n, rest) := by
  have hdig := natCharsAux_digits (n + 1) n (by omega)
  have htake := jTakeDigits_run (natChars n) rest hdig (jTakeDigits_stop rest hrest)
  unfold jParseNat
  rw [htake]
  rcases hn : natChars n with _ | ⟨d, ds⟩
  · exact absurd hn (natCharsAux_ne_nil (n + 1) n (by omega))
  · have hval : digitsVal (d :: ds) = n := by
      rw [← hn]
      exact natCharsAux_val (n + 1) n (by omega)
    have hnolead : ¬(d = '0' ∧ ds ≠ []) := by
      rintro ⟨rfl, hne⟩
      by_cases h10 : n < 10
      · have : natChars n = [digitChar n] := by
          unfold natChars natCharsAux
          simp [if_pos h10]
        rw [this] at hn
        exact hne (List.cons.inj hn).2.symm
      · exact natCharsAux_head_ne_zero (n + 1) n (by omega) (by omega) ds hn
    show (if d = '0' ∧ ds ≠ [] then none else some (digitsVal (d :: ds), rest))
      = some (n, rest)
    rw [if_neg hnolead, hval]

theorem jParseInt_intChars (i : Int) (rest : Str)
    (hrest : ∀ c, rest.head? = some c → jIsDigit c = false) :
    jParseInt (intChars i ++ rest) = some (i, rest) := by
  by_cases hneg : i < 0
  · have henc : intChars i = '-' :: natChars i.natAbs := by simp [intChars, hneg]
    rw [henc, List.cons_append]
    show (if ('-' : Char) = '-'
        then (jParseNat (natChars i.natAbs ++ rest)).map (fun p => (-(p.1 : Int), p.2))
        else (jParseNat ('-' :: (natChars i.natAbs ++ rest))).map
          (fun p => ((p.1 : Int), p.2)))
      = some (i, rest)
    rw [if_pos rfl, jParseNat_natChars i.natAbs rest hrest]
    have habs : -((i.natAbs : Int)) = i := by omega
    show some (-((i.natAbs : Int)), rest) = some (i, rest)
    rw [habs]
  · have henc : intChars i = natChars i.natAbs := by simp [intChars, hneg]
    rcases hn : natChars i.natAbs with _ | ⟨d, ds⟩
    · exact absurd hn (natCharsAux_ne_nil (i.natAbs + 1) i.natAbs (by omega))
    · have hn2 : natCharsAux (i.natAbs + 1) i.natAbs = d :: ds := hn
      have hd : jIsDigit d = true :=
        natCharsAux_digits (i.natAbs + 1) i.natAbs (by omega) d (by rw [hn2]; simp)
      have hdash : d ≠ '-' := (jIsDigit_ne d hd).1
      have hparse := jParseNat_natChars i.natAbs rest hrest
      rw [henc, hn, List.cons_append]
      show (if d = '-'
          then (jParseNat (ds ++ rest)).map (fun p => (-(p.1 : Int), p.2))
          else (jParseNat (d :: (ds ++ rest))).map (fun p => ((p.1 : Int), p.2)))
        = some (i, rest)
      rw [if_neg hdash, ← List.cons_append, ← hn, hparse]
      have habs : ((i.natAbs : Int)) = i := by omega
      show some (((i.natAbs : Int)), rest) = some (i, rest)
      rw [habs]

/-! ### Strings -/

theorem hexDigitVal_hexDigitChar : ∀ k, k < 16 → hexDigitVal (hexDigitChar k) = some k := by
  decide

theorem jStrStep_escape (c : Char) (rest : Str) :
    ∃ e0 tail, jEscapeChar c ++ rest = e0 :: tail ∧ jStrStep e0 tail = some (some c, rest) := by
  by_cases hq : c = '"'
  · subst hq
    exact ⟨'\\', '"' :: rest, by simp [jEscapeChar], by simp [jStrStep, jUnescape]⟩
  · by_cases hb : c = '\\'
    · subst hb
      exact ⟨'\\', '\\' :: rest, by simp [jEscapeChar], by simp [jStrStep, jUnescape]⟩
    · by_cases hctl : c.toNat < 0x20
      · refine ⟨'\\', 'u' :: '0' :: '0' :: hexDigitChar (c.toNat / 16) ::
          hexDigitChar (c.toNat % 16) :: rest, by simp [jEscapeChar, hq, hb, hctl], ?_⟩
        have h1 := hexDigitVal_hexDigitChar (c.toNat / 16) (by omega)
        have h2 := hexDigitVal_hexDigitChar (c.toNat % 16) (by omega)
        have hvz : hexDigitVal '0' = some 0 := by decide
        have harith : 0 * 4096 + (0 * 256 + (c.toNat / 16 * 16 + c.toNat % 16))
            = c.toNat := by omega
        have hlt : c.toNat < 0xD800 ∨ 0xE000 ≤ c.toNat := by omega
        simp only [jStrStep, hex4, h1, h2, hvz, Option.bind_some, List.cons.injEq,
          bind, Option.bind]
        have harith2 : 0 * 4096 + (0 * 256 + (c.toNat / 16 * 16 + c.toNat % 16))
            = c.toNat := by omega
        simp only [reduceIte]
        rw [harith2, if_pos hlt, Char.ofNat_toNat]
        simp
      · exact ⟨c, rest, by simp [jEscapeChar, hq, hb, hctl],
          by simp [jStrStep, hq, hb, hctl]⟩

theorem jParseStrAux_escape (fuel : Nat) (c : Char) (acc rest : Str) :
    jParseStrAux (fuel + 1) acc (jEscapeChar c ++ rest)
      = jParseStrAux fuel (c :: acc) rest := by
  obtain ⟨e0, tail, heq, hstep⟩ := jStrStep_escape c rest
  rw [heq, jParseStrAux, hstep]

theorem jParseStr_rt : ∀ (s : Str) (fuel : Nat), s.length < fuel → ∀ (acc rest : Str),
    jParseStrAux fuel acc (jEscape s ++ '"' :: rest) = some (acc.reverse ++ s, rest) := by
  intro s
  induction s with
  | nil =>
    intro fuel hf acc rest
    rcases fuel with _ | f
    · omega
    · have harg : jEscape [] ++ '"' :: rest = '"' :: rest := rfl
      rw [harg, jParseStrAux]
      have hqs : jStrStep '"' rest = some (none, rest) := by simp [jStrStep]
      rw [hqs]
      simp
  | cons c cs ih =>
    intro fuel hf acc rest
    rcases fuel with _ | f
    · omega
    · have harg : jEscape (c :: cs) ++ '"' :: rest
          = jEscapeChar c ++ (jEscape cs ++ '"' :: rest) := by
        show (jEscapeChar c ++ jEscape cs) ++ '"' :: rest = _
        rw [List.append_assoc]
      rw [harg, jParseStrAux_escape,
        ih f (by simp only [List.length_cons] at hf; omega) (c :: acc) rest]
      simp

theorem jEscape_length_ge (s : Str) : s.length ≤ (jEscape s).length := by
  induction s with
  | nil => simp [jEscape]
  | cons c cs ih =>
    have hne : 1 ≤ (jEscapeChar c).length := by
      unfold jEscapeChar
      split
      · simp
      · split
        · simp
        · split <;> simp
    have harg : jEscape (c :: cs) = jEscapeChar c ++ jEscape cs := rfl
    rw [harg, List.length_append, List.length_cons]
    omega

/-! ### Whitespace, serialized heads, and dictionary rebuilding -/

theorem jSkipWs_not (c : Char) (cs : Str) (h : jIsWs c = false) :
    jSkipWs (c :: cs) = c :: cs := by
  unfold jSkipWs
  rw [h]
  simp

/-- `jSkipWs_not` with the hypothesis first, for use as a `simp` rewrite at a
known head character. -/
theorem jSkipWs_not2 (c : Char) (h : jIsWs c = false) (cs : Str) :
    jSkipWs (c :: cs) = c :: cs := jSkipWs_not c cs h

/-- Every serialized value starts with a character that is neither whitespace
nor a closing bracket. -/
theorem dumps_head (j : Json) :
    ∃ c t, Json.dumps j = c :: t ∧ jIsWs c = false ∧ c ≠ ']' := by
  cases j with
  | null => refine ⟨'n', _, rfl, ?_, ?_⟩ <;> decide
  | bool b => cases b with
    | true => refine ⟨'t', _, rfl, ?_, ?_⟩ <;> decide
    | false => refine ⟨'f', _, rfl, ?_, ?_⟩ <;> decide
  | str s => refine ⟨'"', _, rfl, ?_, ?_⟩ <;> decide
  | arr xs => refine ⟨'[', _, rfl, ?_, ?_⟩ <;> decide
  | obj kvs => refine ⟨obraceC, _, rfl, ?_, ?_⟩ <;> decide
  | num i =>
    by_cases hneg : i < 0
    · refine ⟨'-', natChars i.natAbs, ?_, by decide, by decide⟩
      show intChars i = _
      simp [intChars, hneg]
    · rcases hn : natChars i.natAbs with _ | ⟨d, ds⟩
      · exact absurd hn (natCharsAux_ne_nil (i.natAbs + 1) i.natAbs (by omega))
      · have hd : jIsDigit d = true :=
          natCharsAux_digits (i.natAbs + 1) i.natAbs (by omega) d
            (by rw [show natCharsAux (i.natAbs + 1) i.natAbs = d :: ds from hn]; simp)
        have hfacts := jIsDigit_ne d hd
        refine ⟨d, ds, ?_, hfacts.2.2.2.2.2.2.2.2.2.2.2, hfacts.2.2.2.2.2.2.1⟩
        show intChars i = _
        simp [intChars, hneg, hn]

theorem jSkipWs_dumps (j : Json) (x : Str) :
    jSkipWs (Json.dumps j ++ x) = Json.dumps j ++ x := by
  obtain ⟨c, t, heq, hws, _⟩ := dumps_head j
  rw [heq, List.cons_append, jSkipWs_not c _ hws]

theorem lookupKV_append (l1 l2 : List (Str × Json)) (k : Str) :
    lookupKV (l1 ++ l2) k
      = match lookupKV l1 k with
        | some v => some v
        | none => lookupKV l2 k := by
  induction l1 with
  | nil => simp [lookupKV]
  | cons kv rest ih =>
    obtain ⟨k2, v2⟩ := kv
    by_cases hk : k2 = k <;> simp [lookupKV, hk, ih]

theorem insertKV_of_absent (kvs : List (Str × Json)) (k : Str) (v : Json)
    (h : lookupKV kvs k = none) : insertKV kvs k v = kvs ++ [(k, v)] := by
  induction kvs with
  | nil => rfl
  | cons kv rest ih =>
    obtain ⟨k2, v2⟩ := kv
    unfold lookupKV at h
    by_cases hk : k2 = k
    · rw [if_pos hk] at h
      cases h
    · rw [if_neg hk] at h
      simp [insertKV, hk, ih h]

theorem keyMem_false_lookup (ms : List (Str × Json)) (k : Str)
    (h : keyMem k (ms.map Prod.fst) = false) : lookupKV ms k = none := by
  induction ms with
  | nil => rfl
  | cons kv rest ih =>
    obtain ⟨k2, v2⟩ := kv
    simp only [List.map_cons, keyMem, Bool.or_eq_false_iff, decide_eq_false_iff_not] at h
    simp [lookupKV, h.1, ih h.2]

theorem foldl_insertKV (ms : List (Str × Json)) :
    ∀ acc : List (Str × Json), (∀ kv ∈ ms, lookupKV acc kv.1 = none) →
    distinctKeys (ms.map Prod.fst) = true →
    ms.foldl (fun a kv => insertKV a kv.1 kv.2) acc = acc ++ ms := by
  induction ms with
  | nil => intro acc _ _; simp
  | cons kv rest ih =>
    intro acc hnone hdist
    obtain ⟨k, v⟩ := kv
    simp only [List.map_cons, distinctKeys, Bool.and_eq_true, Bool.not_eq_true'] at hdist
    have hstep : insertKV acc k v = acc ++ [(k, v)] :=
      insertKV_of_absent acc k v (hnone (k, v) (by simp))
    have hrest : ∀ kv2 ∈ rest, lookupKV (acc ++ [(k, v)]) kv2.1 = none := by
      intro kv2 hkv2
      rw [lookupKV_append, hnone kv2 (by simp [hkv2])]
      have hne : k ≠ kv2.1 := by
        intro he
        have : keyMem k (rest.map Prod.fst) = true := by
          clear hstep hnone hdist ih
          induction rest with
          | nil => cases hkv2
          | cons kv3 r3 ih3 =>
            rcases List.mem_cons.mp hkv2 with h3 | h3
            · subst h3
              simp [keyMem, he]
            · simp [keyMem, ih3 h3]
        rw [this] at hdist
        cases hdist.1
      simp [lookupKV, hne]
    have := ih (acc ++ [(k, v)]) hrest hdist.2
    simp only [List.foldl_cons, hstep, this, List.append_assoc, List.singleton_append]

theorem buildObj_distinct (ms : List (Str × Json))
    (h : distinctKeys (ms.map Prod.fst) = true) : buildObj ms = ms := by
  unfold buildObj
  rw [foldl_insertKV ms [] (fun kv _ => rfl) h]
  simp

/-! ### Parser branch dispatch -/

theorem head_not_digit_of (c0 : Char) (h : jIsDigit c0 = false) (r : Str) :
    ∀ c, (c0 :: r).head? = some c → jIsDigit c = false := by
  intro c hc
  simp only [List.head?_cons, Option.some.injEq] at hc
  rw [← hc]
  exact h

theorem jParseVal_num_branch (fuel : Nat) (d : Char) (r : Str)
    (hws : jIsWs d = false)
    (hn : d ≠ 'n') (ht : d ≠ 't') (hf : d ≠ 'f') (hq : d ≠ '"') (hbk : d ≠ '[')
    (hob : d ≠ obraceC) (hnum : d = '-' ∨ jIsDigit d = true) :
    jParseVal (fuel + 1) (d :: r)
      = (jParseInt (d :: r)).map (fun p => (Json.num p.1, p.2)) := by
  rw [jParseVal, jSkipWs_not d r hws]
  simp only [if_neg hn, if_neg ht, if_neg hf, if_neg hq, if_neg hbk, if_neg hob,
    if_pos hnum]

theorem jParseVal_str_branch (fuel : Nat) (r : Str) :
    jParseVal (fuel + 1) ('"' :: r)
      = (jParseStrAux (r.length + 1) [] r).map (fun p => (Json.str p.1, p.2)) := by
  rw [jParseVal, jSkipWs_not _ _ (by decide)]
  simp

theorem jParseVal_arr_branch (fuel : Nat) (r : Str) :
    jParseVal (fuel + 1) ('[' :: r)
      = (match jSkipWs r with
         | [] => none
         | c2 :: r1 =>
           if c2 = ']' then some (.arr [], r1)
           else (jParseItems fuel (c2 :: r1)).map (fun p => (.arr p.1, p.2))) := by
  rw [jParseVal, jSkipWs_not _ _ (by decide)]
  simp

theorem jParseVal_obj_branch (fuel : Nat) (r : Str) :
    jParseVal (fuel + 1) (obraceC :: r)
      = (match jSkipWs r with
         | [] => none
         | c2 :: r1 =>
           if c2 = cbraceC then some (.obj [], r1)
           else (jParseMembers fuel (c2 :: r1)).map
             (fun p => (.obj (buildObj p.1), p.2))) := by
  rw [jParseVal, jSkipWs_not _ _ (by decide)]
  simp only [if_neg (by decide : ¬obraceC = 'n'), if_neg (by decide : ¬obraceC = 't'),
    if_neg (by decide : ¬obraceC = 'f'), if_neg (by decide : ¬obraceC = '"'),
    if_neg (by decide : ¬obraceC = '['), if_pos rfl]
  rw [if_pos trivial]

/-! ### The codec round trip -/

mutual

theorem rt_val : ∀ (j : Json) (fuel : Nat) (rest : Str),
    Json.wf j = true → (Json.dumps j).length < fuel →
    (∀ c, rest.head? = some c → jIsDigit c = false) →
    jParseVal fuel (Json.dumps j ++ rest) = some (j, rest)
  | j, 0, rest, _, hf, _ => absurd hf (by omega)
  | .null, fuel + 1, rest, _, _, _ => by
    show jParseVal (fuel + 1) ('n' :: 'u' :: 'l' :: 'l' :: rest) = some (.null, rest)
    rw [jParseVal, jSkipWs_not _ _ (by decide)]
    simp
  | .bool true, fuel + 1, rest, _, _, _ => by
    show jParseVal (fuel + 1) ('t' :: 'r' :: 'u' :: 'e' :: rest) = some (.bool true, rest)
    rw [jParseVal, jSkipWs_not _ _ (by decide)]
    simp
  | .bool false, fuel + 1, rest, _, _, _ => by
    show jParseVal (fuel + 1) ('f' :: 'a' :: 'l' :: 's' :: 'e' :: rest)
      = some (.bool false, rest)
    rw [jParseVal, jSkipWs_not _ _ (by decide)]
    simp
  | .num i, fuel + 1, rest, _, _, hrest => by
    obtain ⟨d, ds, hd, hids⟩ : ∃ d ds, intChars i = d :: ds ∧ (d = '-' ∨ jIsDigit d = true) := by
      by_cases hneg : i < 0
      · exact ⟨'-', natChars i.natAbs, by simp [intChars, hneg], Or.inl rfl⟩
      · rcases hn : natChars i.natAbs with _ | ⟨d, ds⟩
        · exact absurd hn (natCharsAux_ne_nil (i.natAbs + 1) i.natAbs (by omega))
        · refine ⟨d, ds, by simp [intChars, hneg, hn], Or.inr ?_⟩
          exact natCharsAux_digits (i.natAbs + 1) i.natAbs (by omega) d
            (by rw [show natCharsAux (i.natAbs + 1) i.natAbs = d :: ds from hn]; simp)
    have hne : jIsWs d = false ∧ d ≠ 'n' ∧ d ≠ 't' ∧ d ≠ 'f' ∧ d ≠ '"' ∧ d ≠ '[' ∧
        d ≠ obraceC := by
      rcases hids with rfl | hdig
      · exact ⟨by decide, by decide, by decide, by decide, by decide, by decide, by decide⟩
      · obtain ⟨_, h2, h3, h4, h5, h6, _, h8, _, _, _, h12⟩ := jIsDigit_ne d hdig
        exact ⟨h12, h2, h4, h3, h6, h5, h8⟩
    have harg : Json.dumps (.num i) ++ rest = d :: (ds ++ rest) := by
      show intChars i ++ rest = _
      rw [hd]
      rfl
    rw [harg, jParseVal_num_branch fuel d (ds ++ rest) hne.1 hne.2.1 hne.2.2.1
      hne.2.2.2.1 hne.2.2.2.2.1 hne.2.2.2.2.2.1 hne.2.2.2.2.2.2 hids]
    have hback : d :: (ds ++ rest) = intChars i ++ rest := by
      rw [hd]
      rfl
    rw [hback, jParseInt_intChars i rest hrest]
    rfl
  | .str s, fuel + 1, rest, _, _, _ => by
    have harg : Json.dumps (.str s) ++ rest = '"' :: (jEscape s ++ '"' :: rest) := by
      show ('"' :: (jEscape s ++ ['"'])) ++ rest = _
      simp
    rw [harg, jParseVal_str_branch]
    have hlen : s.length < (jEscape s ++ '"' :: rest).length + 1 := by
      have := jEscape_length_ge s
      rw [List.length_append]
      omega
    rw [jParseStr_rt s _ hlen [] rest]
    simp
  | .arr [], fuel + 1, rest, _, _, _ => by
    have harg : Json.dumps (.arr []) ++ rest = '[' :: (']' :: rest) := rfl
    rw [harg, jParseVal_arr_branch, jSkipWs_not _ _ (by decide)]
    simp
  | .arr (x :: xs), fuel + 1, rest, hwf, hf, hrest => by
    have hwf2 : wfItems (x :: xs) = true := hwf
    have harg : Json.dumps (.arr (x :: xs)) ++ rest
        = '[' :: (dumpsItems (x :: xs) ++ ']' :: rest) := by
      show ('[' :: (dumpsItems (x :: xs) ++ [']'])) ++ rest = _
      simp
    rw [harg, jParseVal_arr_branch]
    obtain ⟨c, t, hx, hws, hbr⟩ := dumps_head x
    obtain ⟨u, hu⟩ : ∃ u, dumpsItems (x :: xs) = c :: u := by
      cases xs with
      | nil =>
        refine ⟨t, ?_⟩
        show Json.dumps x = _
        rw [hx]
      | cons y ys =>
        refine ⟨t ++ ',' :: dumpsItems (y :: ys), ?_⟩
        show Json.dumps x ++ ',' :: dumpsItems (y :: ys) = _
        rw [hx]
        rfl
    rw [hu, List.cons_append, jSkipWs_not _ _ hws]
    simp only [if_neg hbr]
    rw [← List.cons_append, ← hu]
    have hlen : (dumpsItems (x :: xs)).length + 1 < fuel := by
      have hlen2 : (Json.dumps (.arr (x :: xs))).length = (dumpsItems (x :: xs)).length + 2 := by
        show ('[' :: (dumpsItems (x :: xs) ++ [']'])).length = _
        simp
      omega
    rw [rt_items x xs fuel rest hwf2 hlen hrest]
    rfl
  | .obj [], fuel + 1, rest, _, _, _ => by
    have harg : Json.dumps (.obj []) ++ rest = obraceC :: (cbraceC :: rest) := rfl
    rw [harg, jParseVal_obj_branch, jSkipWs_not _ _ (by decide)]
    show (if cbraceC = cbraceC then some (Json.obj ([] : List (Str × Json)), rest)
        else (jParseMembers fuel (cbraceC :: rest)).map
          (fun p => (Json.obj (buildObj p.1), p.2))) = some (Json.obj [], rest)
    rw [if_pos rfl]
  | .obj ((k, v) :: ms), fuel + 1, rest, hwf, hf, hrest => by
    have hwf2 : distinctKeys (((k, v) :: ms).map Prod.fst) = true ∧
        wfMembers ((k, v) :: ms) = true := by
      have heq : (distinctKeys (((k, v) :: ms).map Prod.fst) && wfMembers ((k, v) :: ms))
          = true := hwf
      simp only [Bool.and_eq_true] at heq
      exact heq
    have harg : Json.dumps (.obj ((k, v) :: ms)) ++ rest
        = obraceC :: (dumpsMembers ((k, v) :: ms) ++ cbraceC :: rest) := by
      show (obraceC :: (dumpsMembers ((k, v) :: ms) ++ [cbraceC])) ++ rest = _
      simp
    rw [harg, jParseVal_obj_branch]
    obtain ⟨u, hu⟩ : ∃ u, dumpsMembers ((k, v) :: ms) = '"' :: u := by
      cases ms with
      | nil => exact ⟨_, rfl⟩
      | cons m2 ms2 => exact ⟨_, rfl⟩
    rw [hu, List.cons_append, jSkipWs_not _ _ (by decide)]
    simp only [if_neg (by decide : ¬('"' : Char) = cbraceC)]
    rw [← List.cons_append, ← hu]
    have hlen : (dumpsMembers ((k, v) :: ms)).length + 1 < fuel := by
      have hlen2 : (Json.dumps (.obj ((k, v) :: ms))).length
          = (dumpsMembers ((k, v) :: ms)).length + 2 := by
        show (obraceC :: (dumpsMembers ((k, v) :: ms) ++ [cbraceC])).length = _
        simp
      omega
    rw [rt_members (k, v) ms fuel rest hwf2.2 hlen hrest]
    show some (Json.obj (buildObj ((k, v) :: ms)), rest) = some (Json.obj ((k, v) :: ms), rest)
    rw [buildObj_distinct _ hwf2.1]
termination_by j _ _ _ _ _ => sizeOf j

theorem rt_items : ∀ (x : Json) (xs : List Json) (fuel : Nat) (rest : Str),
    wfItems (x :: xs) = true → (dumpsItems (x :: xs)).length + 1 < fuel →
    (∀ c, rest.head? = some c → jIsDigit c = false) →
    jParseItems fuel (dumpsItems (x :: xs) ++ ']' :: rest) = some (x :: xs, rest)
  | x, [], fuel, rest, hwf, hf, hrest => by
    rcases fuel with _ | f
    · omega
    · have hwf2 : (Json.wf x && wfItems []) = true := hwf
      simp only [Bool.and_eq_true] at hwf2
      rw [jParseItems]
      have harg : dumpsItems [x] ++ ']' :: rest = Json.dumps x ++ ']' :: rest := rfl
      rw [harg, rt_val x f (']' :: rest) hwf2.1
        (by
          have hrfl : (dumpsItems [x]).length = (Json.dumps x).length := rfl
          omega)
        (head_not_digit_of ']' (by decide) rest)]
      simp only [jSkipWs_not2 ']' (by decide)]
      simp only [reduceIte]
      rw [if_neg (by decide : ¬(']' : Char) = ',')]
  | x, y :: ys, fuel, rest, hwf, hf, hrest => by
    rcases fuel with _ | f
    · omega
    · have hwf2 : (Json.wf x && wfItems (y :: ys)) = true := hwf
      simp only [Bool.and_eq_true] at hwf2
      have hlenitems : (dumpsItems (x :: y :: ys)).length
          = (Json.dumps x).length + 1 + (dumpsItems (y :: ys)).length := by
        show (Json.dumps x ++ ',' :: dumpsItems (y :: ys)).length = _
        simp
        omega
      rw [jParseItems]
      have harg : dumpsItems (x :: y :: ys) ++ ']' :: rest
          = Json.dumps x ++ (',' :: (dumpsItems (y :: ys) ++ ']' :: rest)) := by
        show (Json.dumps x ++ ',' :: dumpsItems (y :: ys)) ++ ']' :: rest = _
        simp
      rw [harg, rt_val x f (',' :: (dumpsItems (y :: ys) ++ ']' :: rest)) hwf2.1
        (by omega) (head_not_digit_of ',' (by decide) _)]
      simp only [jSkipWs_not2 ',' (by decide)]
      simp only [reduceIte]
      rw [rt_items y ys f rest hwf2.2 (by omega) hrest]
      rfl
termination_by x xs _ _ _ _ _ => 1 + sizeOf x + sizeOf xs

theorem rt_members : ∀ (m : Str × Json) (ms : List (Str × Json)) (fuel : Nat) (rest : Str),
    wfMembers (m :: ms) = true → (dumpsMembers (m :: ms)).length + 1 < fuel →
    (∀ c, rest.head? = some c → jIsDigit c = false) →
    jParseMembers fuel (dumpsMembers (m :: ms) ++ cbraceC :: rest) = some (m :: ms, rest)
  | (k, v), [], fuel, rest, hwf, hf, hrest => by
    rcases fuel with _ | f
    · omega
    · have hwf2 : (Json.wf v && wfMembers []) = true := hwf
      simp only [Bool.and_eq_true] at hwf2
      rw [jParseMembers]
      have harg : dumpsMembers [(k, v)] ++ cbraceC :: rest
          = '"' :: (jEscape k ++ '"' :: (':' :: (Json.dumps v ++ cbraceC :: rest))) := by
        show ('"' :: (jEscape k ++ ('"' :: (':' :: Json.dumps v)))) ++ cbraceC :: rest = _
        simp
      rw [harg, jSkipWs_not _ _ (by decide)]
      simp only [reduceIte]
      have hlenk : k.length
          < (jEscape k ++ '"' :: (':' :: (Json.dumps v ++ cbraceC :: rest))).length + 1 := by
        have := jEscape_length_ge k
        rw [List.length_append]
        omega
      rw [jParseStr_rt k _ hlenk [] (':' :: (Json.dumps v ++ cbraceC :: rest))]
      simp only [jSkipWs_not2 ':' (by decide), List.reverse_nil, List.nil_append]
      simp only [reduceIte]
      have hlenv : (Json.dumps v).length < f := by
        have hm : (dumpsMembers [(k, v)]).length
            = (jEscape k).length + 3 + (Json.dumps v).length := by
          show ('"' :: (jEscape k ++ ('"' :: (':' :: Json.dumps v)))).length = _
          simp
          omega
        omega
      rw [rt_val v f (cbraceC :: rest) hwf2.1 hlenv
        (head_not_digit_of cbraceC (by decide) rest)]
      simp only [jSkipWs_not2 cbraceC (by decide)]
      simp only [reduceIte]
      rw [if_neg (by decide : ¬cbraceC = ',')]
  | (k, v), m2 :: ms2, fuel, rest, hwf, hf, hrest => by
    rcases fuel with _ | f
    · omega
    · have hwf2 : (Json.wf v && wfMembers (m2 :: ms2)) = true := hwf
      simp only [Bool.and_eq_true] at hwf2
      have hlenmem : (dumpsMembers ((k, v) :: m2 :: ms2)).length
          = (jEscape k).length + 4 + (Json.dumps v).length
            + (dumpsMembers (m2 :: ms2)).length := by
        show ('"' :: (jEscape k ++ ('"' :: (':' :: (Json.dumps v ++ ',' ::
          dumpsMembers (m2 :: ms2)))))).length = _
        simp
        omega
      rw [jParseMembers]
      have harg : dumpsMembers ((k, v) :: m2 :: ms2) ++ cbraceC :: rest
          = '"' :: (jEscape k ++ '"' :: (':' :: (Json.dumps v ++
              (',' :: (dumpsMembers (m2 :: ms2) ++ cbraceC :: rest))))) := by
        show ('"' :: (jEscape k ++ ('"' :: (':' :: (Json.dumps v ++ ',' ::
          dumpsMembers (m2 :: ms2)))))) ++ cbraceC :: rest = _
        simp
      rw [harg, jSkipWs_not _ _ (by decide)]
      simp only [reduceIte]
      have hlenk : k.length < (jEscape k ++ '"' :: (':' :: (Json.dumps v ++
          (',' :: (dumpsMembers (m2 :: ms2) ++ cbraceC :: rest))))).length + 1 := by
        have := jEscape_length_ge k
        rw [List.length_append]
        omega
      rw [jParseStr_rt k _ hlenk [] (':' :: (Json.dumps v ++
        (',' :: (dumpsMembers (m2 :: ms2) ++ cbraceC :: rest))))]
      simp only [jSkipWs_not2 ':' (by decide), List.reverse_nil, List.nil_append]
      simp only [reduceIte]
      rw [rt_val v f (',' :: (dumpsMembers (m2 :: ms2) ++ cbraceC :: rest)) hwf2.1
        (by omega) (head_not_digit_of ',' (by decide) _)]
      simp only [jSkipWs_not2 ',' (by decide)]
      simp only [reduceIte]
      rw [rt_members m2 ms2 f rest hwf2.2 (by omega) hrest]
      rfl
termination_by m ms _ _ _ _ _ => 1 + sizeOf m + sizeOf ms

end

/-! ### Assembling the token round trip (C8) -/

theorem jloadsStr_dumps (j : Json) (hwf : j.wf = true) :
    jloadsStr (Json.dumps j) = some j := by
  unfold jloadsStr
  have hval := rt_val j ((Json.dumps j).length + 1) [] hwf (by omega)
    (by intro c hc; simp at hc)
  rw [List.append_nil] at hval
  rw [hval]
  rfl

theorem json_loads_dumps (j : Json) (hwf : j.wf = true) :
    json_loads (utf8Encode (Json.dumps j)) = .ok j := by
  unfold json_loads
  rw [utf8_rt]
  show (match jloadsStr (Json.dumps j) with
        | none => Except.error "Expecting value".data
        | some j2 => Except.ok j2) = Except.ok j
  rw [jloadsStr_dumps j hwf]

theorem splitOnChar_ne_nil (sep : Char) (s : Str) : splitOnChar sep s ≠ [] := by
  cases s with
  | nil => simp [splitOnChar]
  | cons c cs =>
    unfold splitOnChar
    rcases splitOnChar sep cs with _ | ⟨h, t⟩
    · simp
    · by_cases hc : c = sep <;> simp [hc]

theorem splitOnChar_no_sep (sep : Char) (s : Str) (h : sep ∉ s) :
    splitOnChar sep s = [s] := by
  induction s with
  | nil => rfl
  | cons c cs ih =>
    have hc : c ≠ sep := fun he => h (he ▸ List.mem_cons_self c cs)
    have hcs : sep ∉ cs := fun hm => h (List.mem_cons_of_mem c hm)
    rw [splitOnChar, ih hcs]
    simp [hc]

theorem splitOnChar_append_sep (sep : Char) (s t : Str) (h : sep ∉ s) :
    splitOnChar sep (s ++ sep :: t) = s :: splitOnChar sep t := by
  induction s with
  | nil =>
    show splitOnChar sep (sep :: t) = [] :: splitOnChar sep t
    rw [splitOnChar]
    rcases hsp : splitOnChar sep t with _ | ⟨h1, t1⟩
    · exact absurd hsp (splitOnChar_ne_nil sep t)
    · simp
  | cons c cs ih =>
    have hc : c ≠ sep := fun he => h (he ▸ List.mem_cons_self c cs)
    have hcs : sep ∉ cs := fun hm => h (List.mem_cons_of_mem c hm)
    show splitOnChar sep (c :: (cs ++ sep :: t)) = (c :: cs) :: splitOnChar sep t
    rw [splitOnChar, ih hcs]
    simp [hc]

theorem mkToken_split (pad1 pad2 : Bool) (hJ pJ : Json) (sig : Str) (hsig : '.' ∉ sig) :
    splitOnChar '.' (mkToken pad1 pad2 hJ pJ sig)
      = [b64urlEncode pad1 (utf8Encode (Json.dumps hJ)),
         b64urlEncode pad2 (utf8Encode (Json.dumps pJ)), sig] := by
  unfold mkToken
  rw [splitOnChar_append_sep '.' _ _
      (b64urlEncode_no_dot pad1 _ (utf8Encode_lt (Json.dumps hJ))),
    splitOnChar_append_sep '.' _ _
      (b64urlEncode_no_dot pad2 _ (utf8Encode_lt (Json.dumps pJ))),
    splitOnChar_no_sep '.' sig hsig]

/-! ## C8 — the token codec round trip: corrected -/

/-- A first segment that is "arbitrary" in the claim's sense but contains a
dot, so the synthetic token has four dot-segments. -/
def c8BadFirst : Str := "x.y".data

/-- A JSON-object payload for the C8 counterexample. -/
def c8Payload : Json := Json.obj [("iss".data, Json.str "did:example:123".data)]

/-- A three-part synthetic token whose middle segment is the valid base64url
encoding of `c8Payload` but whose first segment is the arbitrary string
`x.y`. -/
def c8BadToken : Str :=
  c8BadFirst ++ '.' :: (b64urlEncode true (utf8Encode c8Payload.dumps) ++ '.' :: "sig".data)

/-- **C8, counterexample.** The claim allows arbitrary first and third
segments.  With the first segment `x.y` — an arbitrary string — the token
splits into four dot-segments and the codec rejects it instead of returning
the encoded payload object. -/
theorem c8_counterexample :
    parse_jwt_without_verification (some c8BadToken) = .error jwtFormatErr := by decide

/-- **C8, amended.** For every JSON object (integer numbers, objects with
distinct keys), every first segment that is itself the base64url encoding of
a well-formed JSON value, and every dot-free third segment, decoding the
synthetic three-part token — with either segment padded or unpadded — returns
exactly the encoded header, the encoded payload object, and the third segment
verbatim. -/
theorem c8_token_roundtrip (hJ pJ : Json) (sig : Str) (pad1 pad2 : Bool)
    (hwf1 : hJ.wf = true) (hwf2 : pJ.wf = true) (hsig : '.' ∉ sig) :
    parse_jwt_without_verification (some (mkToken pad1 pad2 hJ pJ sig))
      = .ok ⟨hJ, pJ, sig⟩ := by
  have hw : parse_jwt_without_verification (some (mkToken pad1 pad2 hJ pJ sig))
      = (parse_jwt_inner (mkToken pad1 pad2 hJ pJ sig)).mapError
          (fun e => "Failed to parse JWT: ".data ++ e) := rfl
  rw [hw]
  unfold parse_jwt_inner
  rw [mkToken_split pad1 pad2 hJ pJ sig hsig]
  simp only [decode_base64url_encode pad1 _ (utf8Encode_lt (Json.dumps hJ)),
    decode_base64url_encode pad2 _ (utf8Encode_lt (Json.dumps pJ)),
    json_loads_dumps hJ hwf1, json_loads_dumps pJ hwf2]
  rfl

theorem c8_token_roundtrip_witness :
    parse_jwt_without_verification (some (mkToken true false
        (Json.obj [("alg".data, Json.str "none".data)])
        (Json.obj [("iss".data, Json.str "did:example:123".data)]) "sg".data))
      = .ok ⟨Json.obj [("alg".data, Json.str "none".data)],
             Json.obj [("iss".data, Json.str "did:example:123".data)], "sg".data⟩ :=
  c8_token_roundtrip (Json.obj [("alg".data, Json.str "none".data)])
    (Json.obj [("iss".data, Json.str "did:example:123".data)]) "sg".data true false
    (by decide) (by decide) (by decide)

end VPApi
